import Mathlib

/-!
Verification development for the red-black tree in `rb_tree.h`
(template `rb_tree<Key, Value>` with nodes `rb_tree_node`).

Two embeddings of the source are used.

The first (`namespace RBT`) is a heap-faithful operational model: nodes
live in a store addressed by natural-number references (modelling C++
pointers, with `Option Ref` for possibly-null `Node*`), and every pointer
dereference is explicit — dereferencing a null pointer yields the error
`Err.nullDeref` and dereferencing a freed or never-allocated address
yields `Err.badRef`, modelling the undefined behaviour of the
corresponding C++ reads/writes.  Every `while` loop of the source is a
fuel-indexed recursion; exhausted fuel yields `Err.noFuel` (the public
entry points pass fuel large enough for any store whose reachable part is
acyclic, so `noFuel` can arise only from corrupted stores).  Each
definition mirrors the source function of the same name statement by
statement; source line numbers are cited in comments.

The second (`namespace TreeNav`) models the navigation functions
`minimum` / `successor` (source lines 224-253) on an inductive binary
tree, identifying a node pointer with the path of left/right moves from
the root to the node; the parent pointer of the node at path `p` is then
the node at `p.dropLast`, and the source's upward `while` loop over
parent pointers becomes a recursion over the reversed path.  This model
carries the ordering claims about in-order iteration.
-/

namespace RBT

/-- Color of a node (source lines 7-11). -/
inductive Color where
  | RED
  | BLACK
deriving DecidableEq, Repr

/-- Heap reference: the address of a node.  A C++ `Node*` is an
`Option Ref` (`none` is the null pointer). -/
abbrev Ref := Nat

/-- One `rb_tree_node<Key, Value>` (source lines 14-31), with `Key` and
`Value` instantiated at `Nat` (the claims only use the `<` / `>`
comparisons, which `Nat` supplies). -/
structure Node where
  key : Nat
  val : Nat
  color : Color
  parent : Option Ref
  left : Option Ref
  right : Option Ref
deriving DecidableEq, Repr

/-- The tree object: a heap of nodes plus the members `root_` and
`size_` (source lines 210-211).  `next` counts allocations and supplies
fresh addresses for `new`.  A freed or never-allocated address maps to
`none`. -/
structure Store where
  mem : Ref → Option Node
  root_ : Option Ref
  size_ : Nat
  next : Nat

/-- Runtime errors of the model.  `nullDeref` is a dereference of a null
`Node*`; `badRef` is a read or write through a dangling pointer;
`missingReturn` is control flowing off the end of a non-void function
(the not-found path of `find`, lines 108-119); `noFuel` is loop-fuel
exhaustion. -/
inductive Err where
  | nullDeref
  | badRef
  | missingReturn
  | noFuel
deriving DecidableEq, Repr

/-- The empty tree, as built by the constructor (line 84). -/
def emptyStore : Store := ⟨fun _ => none, none, 0, 0⟩

/-- Write the node at address `r`. -/
def Store.write (s : Store) (r : Ref) (nd : Node) : Store :=
  { s with mem := fun q => if q = r then some nd else s.mem q }

/-- Free the node at address `r` (models `delete`). -/
def Store.free (s : Store) (r : Ref) : Store :=
  { s with mem := fun q => if q = r then none else s.mem q }

/-- Dereference a `Node*`: null gives `nullDeref`, a dangling address
gives `badRef`, otherwise the node value. -/
def deref (s : Store) (p : Option Ref) : Except Err Node :=
  match p with
  | none => .error .nullDeref
  | some r =>
    match s.mem r with
    | none => .error .badRef
    | some nd => .ok nd

/-- Read the color of `p` where the source writes `p->color`. -/
def colorAt (s : Store) (p : Option Ref) : Except Err Color :=
  (deref s p).map Node.color

/-- Write one field through a (necessarily non-null) pointer, reading the
current node first, as the C++ member store does. -/
def setColor (s : Store) (r : Ref) (c : Color) : Except Err Store :=
  match s.mem r with
  | none => .error .badRef
  | some nd => .ok (s.write r { nd with color := c })

def setParent (s : Store) (r : Ref) (p : Option Ref) : Except Err Store :=
  match s.mem r with
  | none => .error .badRef
  | some nd => .ok (s.write r { nd with parent := p })

def setLeft (s : Store) (r : Ref) (l : Option Ref) : Except Err Store :=
  match s.mem r with
  | none => .error .badRef
  | some nd => .ok (s.write r { nd with left := l })

def setRight (s : Store) (r : Ref) (l : Option Ref) : Except Err Store :=
  match s.mem r with
  | none => .error .badRef
  | some nd => .ok (s.write r { nd with right := l })

/-- Loop fuel used by the public entry points: strictly more than the
number of addresses ever allocated, hence more than the length of any
acyclic pointer chain in the store. -/
def fuelOf (s : Store) : Nat := s.next + 1

/-- Source lines 224-231, `minimum`: the loop `while (node->left)
node = node->left`, entered with a non-null `node`. -/
def minLoop (s : Store) : Nat → Ref → Except Err Ref
  | 0, _ => .error .noFuel
  | fuel + 1, r =>
    match s.mem r with
    | none => .error .badRef
    | some nd =>
      match nd.left with
      | none => .ok r
      | some l => minLoop s fuel l

/-- Source lines 224-231, `minimum(Node* node)`: null in, null out
(lines 226-227), else follow left children. -/
def minimum (s : Store) (node : Option Ref) : Except Err (Option Ref) :=
  match node with
  | none => .ok none
  | some r => (minLoop s (fuelOf s) r).map some

/-- Source lines 247-250: `while (p && node == p->right) { node = p;
p = p->parent; }` followed by `return p`. -/
def climbLoop (s : Store) : Nat → Option Ref → Option Ref → Except Err (Option Ref)
  | 0, _, _ => .error .noFuel
  | fuel + 1, node, p =>
    match p with
    | none => .ok none
    | some pr =>
      match s.mem pr with
      | none => .error .badRef
      | some pn =>
        if pn.right == node then climbLoop s fuel (some pr) pn.parent
        else .ok (some pr)

/-- Source lines 234-253, `successor(Node* node)`: null in, null out
(lines 236-237); a present right child means `minimum(node->right)`
(lines 240-241); otherwise climb parents while the node is its parent's
right child and return that parent (lines 243-252). -/
def successor (s : Store) (node : Option Ref) : Except Err (Option Ref) :=
  match node with
  | none => .ok none
  | some r =>
    match s.mem r with
    | none => .error .badRef
    | some nd =>
      match nd.right with
      | some rr => (minLoop s (fuelOf s) rr).map some
      | none => climbLoop s (fuelOf s) (some r) nd.parent

/-- An `rb_tree::iterator` (source lines 48-82): the wrapped `Node*`.
The `tree_` back pointer is the ambient store, passed explicitly. -/
structure Iterator where
  node_ : Option Ref
deriving DecidableEq, Repr

/-- The `end()` iterator (lines 94-97): a null node pointer. -/
def endIter : Iterator := ⟨none⟩

/-- The `begin()` iterator (lines 90-93): `minimum(root_)`. -/
def beginIter (s : Store) : Except Err Iterator :=
  (minimum s s.root_).map Iterator.mk

/-- Prefix `operator++` (lines 61-65): `node_ = tree_->successor(node_);
return *this`. -/
def preInc (s : Store) (it : Iterator) : Except Err Iterator :=
  (successor s it.node_).map Iterator.mk

/-- Postfix `operator++(int)` (lines 67-72).  The source does
`auto tmp = this;` — `tmp` is a copy of the `this` *pointer*, not of the
iterator — then assigns `node_` and returns `*tmp`, i.e. the already
advanced `*this`.  The first component is the new state of `*this`, the
second the iterator object the returned reference denotes; since `tmp`
aliases `this`, both are the advanced iterator. -/
def postInc (s : Store) (it : Iterator) : Except Err (Iterator × Iterator) :=
  (successor s it.node_).map fun n => (Iterator.mk n, Iterator.mk n)

/-- Iterate the prefix increment `n` times. -/
def incN (s : Store) : Nat → Iterator → Except Err Iterator
  | 0, it => .ok it
  | n + 1, it =>
    match preInc s it with
    | .error e => .error e
    | .ok it₂ => incN s n it₂

/-- Source lines 108-119, `find(key)`.  The loop returns an iterator on
a key match; when the loop exits because `cur` became null, control
reaches the end of the non-void function without a `return` statement —
modelled as `Err.missingReturn`. -/
def findLoop (s : Store) (key : Nat) : Nat → Option Ref → Except Err (Option Ref)
  | 0, _ => .error .noFuel
  | fuel + 1, cur =>
    match cur with
    | none => .error .missingReturn
    | some r =>
      match s.mem r with
      | none => .error .badRef
      | some nd =>
        if key < nd.key then findLoop s key fuel nd.left
        else if nd.key < key then findLoop s key fuel nd.right
        else .ok (some r)

/-- Public `find` (lines 108-119), starting from `root_`. -/
def find (s : Store) (key : Nat) : Except Err (Option Ref) :=
  findLoop s key (fuelOf s) s.root_

/-- Source lines 261-282, `rotate_left(x)`, translated statement by
statement; every `->` of the source is a fresh dereference of the
current store. -/
def rotate_left (s : Store) (x : Ref) : Except Err Store :=
  match s.mem x with
  | none => .error .badRef
  | some xn =>
    -- Node* y = x->right; (263)  x->right = y->left; (266) derefs y
    match xn.right with
    | none => .error .nullDeref
    | some y =>
      match s.mem y with
      | none => .error .badRef
      | some yn =>
        let s := s.write x { xn with right := yn.left }
        -- if (y->left) y->left->parent = x; (267-268)
        match (match yn.left with
               | none => Except.ok s
               | some b => setParent s b (some x)) with
        | .error e => .error e
        | .ok s =>
          -- y->parent = x->parent; (270)
          match deref s (some x) with
          | .error e => .error e
          | .ok xn₂ =>
            match setParent s y xn₂.parent with
            | .error e => .error e
            | .ok s =>
              -- if (!x->parent) root_ = y; else if (x == x->parent->left)
              -- x->parent->left = y; else x->parent->right = y; (272-278)
              match deref s (some x) with
              | .error e => .error e
              | .ok xn₃ =>
                match (match xn₃.parent with
                       | none => Except.ok { s with root_ := some y }
                       | some p =>
                         match deref s (some p) with
                         | .error e => .error e
                         | .ok pn =>
                           if pn.left == some x then setLeft s p (some y)
                           else setRight s p (some y)) with
                | .error e => .error e
                | .ok s =>
                  -- y->left = x; x->parent = y; (280-281)
                  match setLeft s y (some x) with
                  | .error e => .error e
                  | .ok s => setParent s x (some y)

/-- Source lines 290-306, `rotate_right(y)`, the mirror image. -/
def rotate_right (s : Store) (y : Ref) : Except Err Store :=
  match s.mem y with
  | none => .error .badRef
  | some yn =>
    -- Node* x = y->left; (292)  y->left = x->right; (294) derefs x
    match yn.left with
    | none => .error .nullDeref
    | some x =>
      match s.mem x with
      | none => .error .badRef
      | some xn =>
        let s := s.write y { yn with left := xn.right }
        -- if (x->right) x->right->parent = y; (295-296)
        match (match xn.right with
               | none => Except.ok s
               | some b => setParent s b (some y)) with
        | .error e => .error e
        | .ok s =>
          -- x->parent = y->parent; (297)
          match deref s (some y) with
          | .error e => .error e
          | .ok yn₂ =>
            match setParent s x yn₂.parent with
            | .error e => .error e
            | .ok s =>
              -- if (!y->parent) root_ = x; else if (y == y->parent->left)
              -- y->parent->left = x; else y->parent->right = x; (298-303)
              match deref s (some y) with
              | .error e => .error e
              | .ok yn₃ =>
                match (match yn₃.parent with
                       | none => Except.ok { s with root_ := some x }
                       | some p =>
                         match deref s (some p) with
                         | .error e => .error e
                         | .ok pn =>
                           if pn.left == some y then setLeft s p (some x)
                           else setRight s p (some x)) with
                | .error e => .error e
                | .ok s =>
                  -- x->right = y; y->parent = x; (304-305)
                  match setRight s x (some y) with
                  | .error e => .error e
                  | .ok s => setParent s y (some x)

/-- Source lines 434-444, `transplant(u, v)`: redirect `u`'s parent's
child slot (or `root_`) to `v`, and set `v`'s parent if `v` is present. -/
def transplant (s : Store) (u : Ref) (v : Option Ref) : Except Err Store :=
  match s.mem u with
  | none => .error .badRef
  | some un =>
    match ((match un.parent with
            | none => Except.ok { s with root_ := v }         -- (436-437)
            | some p =>
              match s.mem p with
              | none => .error .badRef
              | some pn =>
                if pn.left == some u then setLeft s p v       -- (438-439)
                else setRight s p v) : Except Err Store) with -- (440-441)
    | .error e => .error e
    | .ok s =>
      -- if (v) v->parent = u->parent; (442-443), with u->parent re-read
      match v with
      | none => .ok s
      | some vr =>
        match deref s (some u) with
        | .error e => .error e
        | .ok un₂ => setParent s vr un₂.parent

/-- Source lines 309-354, the `fix_insert` while loop (312-352).  One
recursive call is one loop iteration.  The locals `parent` and
`grandparent` are bound once per iteration (lines 313-314) and — exactly
as in the source — are *not* refreshed after the inner rotation of the
zig-zag case, so lines 330-331 (and the mirror 347-348) recolor the
node the variables pointed at before the rotation. -/
def fix_insert_loop (s : Store) : Nat → Ref → Except Err (Store × Ref)
  | 0, _ => .error .noFuel
  | fuel + 1, node =>
    -- while (node != root_ && node->parent->color == RED) (312)
    if s.root_ == some node then .ok (s, node)
    else
      match s.mem node with
      | none => .error .badRef
      | some nn =>
        match nn.parent with
        | none => .error .nullDeref                  -- node->parent->color (312)
        | some pr =>
          match s.mem pr with
          | none => .error .badRef
          | some pn =>
            if pn.color != Color.RED then .ok (s, node)
            else
              -- Node* parent = node->parent; Node* grandparent = parent->parent; (313-314)
              match deref s pn.parent with           -- grandparent->left (315)
              | .error e => .error e
              | .ok gn =>
                match pn.parent with
                | none => .error .nullDeref
                | some gr =>
                  if gn.left == some pr then
                    -- uncle = grandparent->right; (316)
                    match (match gn.right with
                           | none => Except.ok false -- uncle && ... (319)
                           | some ur => (colorAt s (some ur)).map (· == Color.RED)) with
                    | .error e => .error e
                    | .ok uncleRed =>
                      if uncleRed then
                        match gn.right with
                        | none => .error .nullDeref  -- unreachable: uncleRed
                        | some ur =>
                          -- parent->color = BLACK; uncle->color = BLACK;
                          -- grandparent->color = RED; node = grandparent; (320-323)
                          match setColor s pr Color.BLACK with
                          | .error e => .error e
                          | .ok s =>
                            match setColor s ur Color.BLACK with
                            | .error e => .error e
                            | .ok s =>
                              match setColor s gr Color.RED with
                              | .error e => .error e
                              | .ok s => fix_insert_loop s fuel gr
                      else
                        -- if (node == parent->right) { node = parent; rotate_left(node); } (326-329)
                        match (if pn.right == some node then
                                 (rotate_left s pr).map fun s => (s, pr)
                               else Except.ok (s, node)) with
                        | .error e => .error e
                        | .ok (s, node) =>
                          -- parent->color = BLACK; grandparent->color = RED;
                          -- rotate_right(grandparent); (330-332)
                          match setColor s pr Color.BLACK with
                          | .error e => .error e
                          | .ok s =>
                            match setColor s gr Color.RED with
                            | .error e => .error e
                            | .ok s =>
                              match rotate_right s gr with
                              | .error e => .error e
                              | .ok s => fix_insert_loop s fuel node
                  else
                    -- mirror case: parent is grandparent's right child (334-350)
                    match (match gn.left with
                           | none => Except.ok false -- uncle && ... (337)
                           | some ur => (colorAt s (some ur)).map (· == Color.RED)) with
                    | .error e => .error e
                    | .ok uncleRed =>
                      if uncleRed then
                        match gn.left with
                        | none => .error .nullDeref  -- unreachable: uncleRed
                        | some ur =>
                          match setColor s pr Color.BLACK with
                          | .error e => .error e
                          | .ok s =>
                            match setColor s ur Color.BLACK with
                            | .error e => .error e
                            | .ok s =>
                              match setColor s gr Color.RED with
                              | .error e => .error e
                              | .ok s => fix_insert_loop s fuel gr
                      else
                        -- if (node == parent->left) { node = parent; rotate_right(node); } (343-346)
                        match (if pn.left == some node then
                                 (rotate_right s pr).map fun s => (s, pr)
                               else Except.ok (s, node)) with
                        | .error e => .error e
                        | .ok (s, node) =>
                          match setColor s pr Color.BLACK with
                          | .error e => .error e
                          | .ok s =>
                            match setColor s gr Color.RED with
                            | .error e => .error e
                            | .ok s =>
                              match rotate_left s gr with
                              | .error e => .error e
                              | .ok s => fix_insert_loop s fuel node

/-- Source lines 309-354, `fix_insert`: the loop followed by
`root_->color = BLACK;` (353). -/
def fix_insert (s : Store) (node : Ref) : Except Err Store :=
  match fix_insert_loop s (fuelOf s) node with
  | .error e => .error e
  | .ok (s, _) =>
    match s.root_ with
    | none => .error .nullDeref
    | some rr => setColor s rr Color.BLACK

/-- Source lines 121-149, the descent of `insert` (123-134): find an
equal key (`.inl`) or the parent under which to link (`.inr`). -/
def insertLoop (s : Store) (key : Nat) :
    Nat → Option Ref → Option Ref → Except Err (Ref ⊕ Option Ref)
  | 0, _, _ => .error .noFuel
  | fuel + 1, parent, cur =>
    match cur with
    | none => .ok (.inr parent)
    | some r =>
      match s.mem r with
      | none => .error .badRef
      | some nd =>
        if key < nd.key then insertLoop s key fuel (some r) nd.left
        else if nd.key < key then insertLoop s key fuel (some r) nd.right
        else .ok (.inl r)

/-- Source lines 121-149, `insert(kv)`.  A duplicate key returns the
existing node and `false` with the tree untouched (131-133).  Otherwise
a new node is allocated — the `rb_tree_node` constructor (lines 23-30)
colors it RED with null children — linked under `parent` (136-145),
`fix_insert` runs (146), `size_` is incremented (147) and the new node
is returned with `true`.  Line 148 of the source writes
`iterator(node)`, a one-argument call of the two-parameter constructor
`iterator(Node*, const rb_tree*)` (line 51) — ill-formed C++ that cannot
compile when `insert` is instantiated; it is modelled here with the
evident intent `iterator(node, this)`. -/
def insert (s : Store) (key v : Nat) : Except Err ((Option Ref × Bool) × Store) :=
  match insertLoop s key (fuelOf s) none s.root_ with
  | .error e => .error e
  | .ok (.inl r) => .ok ((some r, false), s)
  | .ok (.inr parent) =>
    let r := s.next
    let nd : Node := { key := key, val := v, color := Color.RED,
                       parent := parent, left := none, right := none }
    let s := { (Store.write s r nd) with next := s.next + 1 }
    match ((match parent with
            | none => Except.ok { s with root_ := some r }    -- (138-139)
            | some p =>
              match s.mem p with
              | none => .error .badRef
              | some pn =>
                if key < pn.key then setLeft s p (some r)     -- (141-142)
                else setRight s p (some r)) : Except Err Store) with -- (143-144)
    | .error e => .error e
    | .ok s =>
      match fix_insert s r with                                -- (146)
      | .error e => .error e
      | .ok s => .ok ((some r, true), { s with size_ := s.size_ + 1 })

/-- Source lines 357-431, the `fix_delete` while loop (362-428).  The
locals `x` and `parent` are the loop state.  Deliberately preserved
source behaviour: the case-2/3/4 tests (373-374, 381, and mirrors
406-407, 412) read `w->left` / `w->right` without first checking that
the sibling `w` itself is present, and the mirrored case 2 (409-410)
updates `x` but not `parent`. -/
def fix_delete_loop (s : Store) : Nat → Option Ref → Option Ref → Except Err (Store × Option Ref)
  | 0, _, _ => .error .noFuel
  | fuel + 1, x, parent =>
    -- while (x != root_ && (!x || x->color == BLACK)) (362)
    if s.root_ == x then .ok (s, x)
    else
      match (match x with
             | none => Except.ok true
             | some xr => (colorAt s (some xr)).map (· == Color.BLACK)) with
      | .error e => .error e
      | .ok cont =>
        if !cont then .ok (s, x)
        else
          match parent with
          | none => .error .nullDeref                -- x == parent->left (363)
          | some pr =>
            match s.mem pr with
            | none => .error .badRef
            | some pn =>
              if pn.left == x then
                -- x is the left child; Node* w = parent->right; (364)
                -- case 1: if (w && w->color == RED) (366-371)
                match ((match pn.right with
                       | none => Except.ok (s, pn.right)
                       | some wr =>
                         match s.mem wr with
                         | none => .error .badRef
                         | some wn =>
                           if wn.color == Color.RED then
                             match setColor s wr Color.BLACK with   -- (367)
                             | .error e => .error e
                             | .ok s =>
                               match setColor s pr Color.RED with   -- (368)
                               | .error e => .error e
                               | .ok s =>
                                 match rotate_left s pr with        -- (369)
                                 | .error e => .error e
                                 | .ok s =>
                                   match s.mem pr with              -- w = parent->right (370)
                                   | none => .error .badRef
                                   | some pn₂ => .ok (s, pn₂.right)
                           else Except.ok (s, pn.right)) : Except Err (Store × Option Ref)) with
                | .error e => .error e
                | .ok (s, w) =>
                  -- (!w->left || w->left->color == BLACK) &&
                  -- (!w->right || w->right->color == BLACK) (373-374):
                  -- reads through w with no presence check on w itself
                  match deref s w with
                  | .error e => .error e
                  | .ok wn =>
                    match (match wn.left with
                           | none => Except.ok true
                           | some wl => (colorAt s (some wl)).map (· == Color.BLACK)) with
                    | .error e => .error e
                    | .ok leftBlack =>
                      match (match wn.right with
                             | none => Except.ok true
                             | some wrr => (colorAt s (some wrr)).map (· == Color.BLACK)) with
                      | .error e => .error e
                      | .ok rightBlack =>
                        if leftBlack && rightBlack then
                          -- case 2: if (w) w->color = RED; x = parent;
                          -- parent = x->parent; (375-378)
                          match (match w with
                                 | none => Except.ok s
                                 | some wr => setColor s wr Color.RED) with
                          | .error e => .error e
                          | .ok s =>
                            match s.mem pr with
                            | none => .error .badRef
                            | some pn₃ => fix_delete_loop s fuel (some pr) pn₃.parent
                        else
                          -- case 3: if (!w->right || w->right->color == BLACK)
                          -- (381); the store is unchanged since 373-374, so the
                          -- re-read yields `rightBlack` again
                          match ((if rightBlack then
                                   match (match wn.left with       -- (382-383)
                                          | none => Except.ok s
                                          | some wl => setColor s wl Color.BLACK) with
                                   | .error e => .error e
                                   | .ok s =>
                                     match w with
                                     | none => .error .badRef      -- w->color = RED (384)
                                     | some wr =>
                                       match setColor s wr Color.RED with
                                       | .error e => .error e
                                       | .ok s =>
                                         match rotate_right s wr with  -- (385)
                                         | .error e => .error e
                                         | .ok s =>
                                           match s.mem pr with     -- w = parent->right (386)
                                           | none => .error .badRef
                                           | some pn₄ => .ok (s, pn₄.right)
                                 else Except.ok (s, w)) : Except Err (Store × Option Ref)) with
                          | .error e => .error e
                          | .ok (s, w) =>
                            -- case 4: if (w) w->color = parent->color; (389-390)
                            match colorAt s (some pr) with
                            | .error e => .error e
                            | .ok pc =>
                              match (match w with
                                     | none => Except.ok s
                                     | some wr => setColor s wr pc) with
                              | .error e => .error e
                              | .ok s =>
                                match setColor s pr Color.BLACK with   -- (391)
                                | .error e => .error e
                                | .ok s =>
                                  -- if (w && w->right) w->right->color = BLACK; (392-393)
                                  match ((match w with
                                          | none => Except.ok s
                                          | some wr =>
                                            match s.mem wr with
                                            | none => .error .badRef
                                            | some wn₂ =>
                                              match wn₂.right with
                                              | none => Except.ok s
                                              | some wrr => setColor s wrr Color.BLACK) : Except Err Store) with
                                  | .error e => .error e
                                  | .ok s =>
                                    match rotate_left s pr with        -- (394)
                                    | .error e => .error e
                                    | .ok s =>
                                      -- x = root_; (395) and loop
                                      fix_delete_loop s fuel s.root_ (some pr)
              else
                -- mirror: x is the right child; Node* w = parent->left; (399)
                match ((match pn.left with
                       | none => Except.ok (s, pn.left)
                       | some wr =>
                         match s.mem wr with
                         | none => .error .badRef
                         | some wn =>
                           if wn.color == Color.RED then
                             match setColor s wr Color.BLACK with   -- (401)
                             | .error e => .error e
                             | .ok s =>
                               match setColor s pr Color.RED with   -- (402)
                               | .error e => .error e
                               | .ok s =>
                                 match rotate_right s pr with       -- (403)
                                 | .error e => .error e
                                 | .ok s =>
                                   match s.mem pr with              -- w = parent->left (404)
                                   | none => .error .badRef
                                   | some pn₂ => .ok (s, pn₂.left)
                           else Except.ok (s, pn.left)) : Except Err (Store × Option Ref)) with
                | .error e => .error e
                | .ok (s, w) =>
                  match deref s w with                              -- (406-407)
                  | .error e => .error e
                  | .ok wn =>
                    match (match wn.left with
                           | none => Except.ok true
                           | some wl => (colorAt s (some wl)).map (· == Color.BLACK)) with
                    | .error e => .error e
                    | .ok leftBlack =>
                      match (match wn.right with
                             | none => Except.ok true
                             | some wrr => (colorAt s (some wrr)).map (· == Color.BLACK)) with
                      | .error e => .error e
                      | .ok rightBlack =>
                        if leftBlack && rightBlack then
                          -- mirrored case 2: if (w) w->color = RED; x = parent;
                          -- (408-410) — the source does NOT refresh `parent` here
                          match (match w with
                                 | none => Except.ok s
                                 | some wr => setColor s wr Color.RED) with
                          | .error e => .error e
                          | .ok s => fix_delete_loop s fuel (some pr) (some pr)
                        else
                          -- mirrored case 3: if (!w->left || w->left->color == BLACK) (412)
                          match ((if leftBlack then
                                   match (match wn.right with      -- (413-414)
                                          | none => Except.ok s
                                          | some wrr => setColor s wrr Color.BLACK) with
                                   | .error e => .error e
                                   | .ok s =>
                                     match w with
                                     | none => .error .badRef      -- w->color = RED (415)
                                     | some wr =>
                                       match setColor s wr Color.RED with
                                       | .error e => .error e
                                       | .ok s =>
                                         match rotate_left s wr with   -- (416)
                                         | .error e => .error e
                                         | .ok s =>
                                           match s.mem pr with     -- w = parent->left (417)
                                           | none => .error .badRef
                                           | some pn₄ => .ok (s, pn₄.left)
                                 else Except.ok (s, w)) : Except Err (Store × Option Ref)) with
                          | .error e => .error e
                          | .ok (s, w) =>
                            -- mirrored case 4 (419-425)
                            match colorAt s (some pr) with
                            | .error e => .error e
                            | .ok pc =>
                              match (match w with
                                     | none => Except.ok s
                                     | some wr => setColor s wr pc) with
                              | .error e => .error e
                              | .ok s =>
                                match setColor s pr Color.BLACK with   -- (421)
                                | .error e => .error e
                                | .ok s =>
                                  -- if (w && w->left) w->left->color = BLACK; (422-423)
                                  match ((match w with
                                          | none => Except.ok s
                                          | some wr =>
                                            match s.mem wr with
                                            | none => .error .badRef
                                            | some wn₂ =>
                                              match wn₂.left with
                                              | none => Except.ok s
                                              | some wll => setColor s wll Color.BLACK) : Except Err Store) with
                                  | .error e => .error e
                                  | .ok s =>
                                    match rotate_right s pr with       -- (424)
                                    | .error e => .error e
                                    | .ok s =>
                                      -- x = root_; (425) and loop
                                      fix_delete_loop s fuel s.root_ (some pr)

/-- Source lines 357-431, `fix_delete(x)`.  The very first statement,
`Node* parent = x->parent;` (359), dereferences `x` before any null
check, although the caller (line 201) passes a null `x` whenever the
physically removed node had no children.  After the loop,
`if (x) x->color = BLACK;` (429-430). -/
def fix_delete (s : Store) (x : Option Ref) : Except Err Store :=
  match deref s x with
  | .error e => .error e
  | .ok xn =>
    match fix_delete_loop s (fuelOf s) x xn.parent with
    | .error e => .error e
    | .ok (s, x) =>
      match x with
      | none => .ok s
      | some xr => setColor s xr Color.BLACK

/-- Source lines 153-162, the search loop of `erase`. -/
def eraseFindLoop (s : Store) (key : Nat) : Nat → Option Ref → Except Err (Option Ref)
  | 0, _ => .error .noFuel
  | fuel + 1, node =>
    match node with
    | none => .ok none
    | some r =>
      match s.mem r with
      | none => .error .badRef
      | some nd =>
        if key < nd.key then eraseFindLoop s key fuel nd.left
        else if nd.key < key then eraseFindLoop s key fuel nd.right
        else .ok (some r)

/-- Source lines 151-206, `erase(key)`: locate the node (153-164); with
two children splice in the successor `y` (172-192), else promote the
only child `x` (194-196); run `fix_delete` when the removed color was
BLACK (200-201); free the node, decrement `size_`, return `true`
(203-205).  `size_` is a C++ `size_t`; the decrement happens only after
a node was found, and the model uses truncated `Nat` subtraction. -/
def erase (s : Store) (key : Nat) : Except Err (Bool × Store) :=
  match eraseFindLoop s key (fuelOf s) s.root_ with
  | .error e => .error e
  | .ok none => .ok (false, s)                                -- (163-164)
  | .ok (some nr) =>
    match s.mem nr with
    | none => .error .badRef
    | some nn =>
      match ((if nn.left.isSome && nn.right.isSome then       -- (172)
               match nn.right with
               | none => Except.error Err.nullDeref           -- unreachable
               | some nrr =>
                 match minLoop s (fuelOf s) nrr with          -- y = minimum(node->right) (173)
                 | .error e => .error e
                 | .ok yr =>
                   match s.mem yr with
                   | none => .error .badRef
                   | some yn =>
                     -- y_original_color = y->color; x = y->right; (174-175)
                     match ((if yn.parent == some nr then
                              -- if (y->parent == node) { if (x) x->parent = y; } (176-178)
                              match yn.right with
                              | none => Except.ok s
                              | some xr => setParent s xr (some yr)
                            else
                              -- transplant(y, y->right); y->right = node->right;
                              -- if (y->right) y->right->parent = y; (180-184)
                              match transplant s yr yn.right with
                              | .error e => .error e
                              | .ok s =>
                                match s.mem nr with
                                | none => .error .badRef
                                | some nn₂ =>
                                  match setRight s yr nn₂.right with
                                  | .error e => .error e
                                  | .ok s =>
                                    match s.mem yr with
                                    | none => .error .badRef
                                    | some yn₂ =>
                                      match yn₂.right with
                                      | none => Except.ok s
                                      | some t => setParent s t (some yr)) : Except Err Store) with
                     | .error e => .error e
                     | .ok s =>
                       match transplant s nr (some yr) with   -- (186)
                       | .error e => .error e
                       | .ok s =>
                         -- y->left = node->left; if (y->left) y->left->parent = y; (188-190)
                         match s.mem nr with
                         | none => .error .badRef
                         | some nn₃ =>
                           match setLeft s yr nn₃.left with
                           | .error e => .error e
                           | .ok s =>
                             match s.mem yr with
                             | none => .error .badRef
                             | some yn₃ =>
                               match ((match yn₃.left with
                                       | none => Except.ok s
                                       | some l => setParent s l (some yr)) : Except Err Store) with
                               | .error e => .error e
                               | .ok s =>
                                 -- y->color = node->color; (192)
                                 match s.mem nr with
                                 | none => .error .badRef
                                 | some nn₄ =>
                                   match setColor s yr nn₄.color with
                                   | .error e => .error e
                                   | .ok s => .ok (s, yn.right, yn.color)
             else
               -- x = node->left ? node->left : node->right; transplant(node, x); (195-196)
               let x := match nn.left with
                        | some l => some l
                        | none => nn.right
               match transplant s nr x with
               | .error e => .error e
               | .ok s => Except.ok (s, x, nn.color)) : Except Err (Store × Option Ref × Color)) with
      | .error e => .error e
      | .ok (s, x, ycol) =>
        -- if (y_original_color == BLACK) fix_delete(x); (200-201)
        match ((if ycol == Color.BLACK then fix_delete s x else Except.ok s) : Except Err Store) with
        | .error e => .error e
        | .ok s =>
          -- delete node; --size_; return true; (203-205)
          .ok (true, { s.free nr with size_ := s.size_ - 1 })

/-- A public mutating operation: `insert(k, v)` or `erase(k)`. -/
inductive Op where
  | ins (k v : Nat)
  | del (k : Nat)

/-- Run one public operation, keeping the store. -/
def applyOp (s : Store) : Op → Except Err Store
  | .ins k v => (insert s k v).map (·.2)
  | .del k => (erase s k).map (·.2)

/-- Run a sequence of public operations from the empty tree. -/
def runOps (ops : List Op) : Except Err Store :=
  ops.foldl (fun acc op =>
    match acc with
    | .error e => .error e
    | .ok s => applyOp s op) (.ok emptyStore)

/-- The error, if any, produced by a sequence of public operations. -/
def runErr (ops : List Op) : Option Err :=
  match runOps ops with
  | .error e => some e
  | .ok _ => none

/-- The store after a sequence of operations, defaulting to the empty
store if the run failed (the theorems using this always run successful
sequences). -/
def storeAfter (ops : List Op) : Store :=
  (runOps ops).toOption.getD emptyStore

/-- In-order key list of the nodes reachable from `r` by child pointers;
`none` on a dangling reference or exhausted fuel. -/
def inorderFrom (s : Store) : Nat → Option Ref → Option (List Nat)
  | 0, _ => none
  | _ + 1, none => some []
  | fuel + 1, some r =>
    match s.mem r with
    | none => none
    | some nd =>
      match inorderFrom s fuel nd.left, inorderFrom s fuel nd.right with
      | some L, some R => some (L ++ nd.key :: R)
      | _, _ => none

/-- Strict ascending order of a key list (the binary-search-tree
property, phrased on the in-order key sequence). -/
def strictSorted : List Nat → Bool
  | [] => true
  | [_] => true
  | a :: b :: t => a < b && strictSorted (b :: t)

/-- Check that no RED node reachable from `r` has a present RED child. -/
def noRedRed (s : Store) : Nat → Option Ref → Bool
  | 0, _ => false
  | _ + 1, none => true
  | fuel + 1, some r =>
    match s.mem r with
    | none => false
    | some nd =>
      (if nd.color == Color.RED then
         (match nd.left with
          | none => true
          | some l => match s.mem l with
                      | none => false
                      | some ln => ln.color == Color.BLACK) &&
         (match nd.right with
          | none => true
          | some rr => match s.mem rr with
                       | none => false
                       | some rn => rn.color == Color.BLACK)
       else true) &&
      noRedRed s fuel nd.left && noRedRed s fuel nd.right

/-- Black height of the subtree under `r`: the number of BLACK nodes on
any path down to an absent-child position, or `none` if two paths
disagree (or the traversal fails). -/
def blackHeightFrom (s : Store) : Nat → Option Ref → Option Nat
  | 0, _ => none
  | _ + 1, none => some 0
  | fuel + 1, some r =>
    match s.mem r with
    | none => none
    | some nd =>
      match blackHeightFrom s fuel nd.left, blackHeightFrom s fuel nd.right with
      | some a, some b =>
        if a == b then some (a + (if nd.color == Color.BLACK then 1 else 0))
        else none
      | _, _ => none

/-- Number of live nodes reachable from `r` by child pointers. -/
def countFrom (s : Store) : Nat → Option Ref → Option Nat
  | 0, _ => none
  | _ + 1, none => some 0
  | fuel + 1, some r =>
    match s.mem r with
    | none => none
    | some nd =>
      match countFrom s fuel nd.left, countFrom s fuel nd.right with
      | some a, some b => some (a + b + 1)
      | _, _ => none

/-- Independent validator of the class invariants listed in the
specification: binary-search-tree order of the in-order key sequence,
root BLACK when present, no RED node with a present RED child, equal
black count on every path to an absent-child position, and `size_`
equal to the number of live nodes reachable from the root.  (The
invariant that every node is RED or BLACK holds by the `Color` type.) -/
def validRB (s : Store) : Bool :=
  let fuel := s.next + 1
  (match s.root_ with
   | none => true
   | some r =>
     match s.mem r with
     | none => false
     | some nd => nd.color == Color.BLACK) &&
  (match inorderFrom s fuel s.root_ with
   | none => false
   | some ks => strictSorted ks) &&
  noRedRed s fuel s.root_ &&
  (blackHeightFrom s fuel s.root_).isSome &&
  (match countFrom s fuel s.root_ with
   | none => false
   | some n => n == s.size_)

/-- The node the root pointer designates, if any. -/
def rootNode (s : Store) : Option Node :=
  match s.root_ with
  | none => none
  | some r => s.mem r

/-- Key and color of the node a pointer designates. -/
def keyColorAt (s : Store) (p : Option Ref) : Option (Nat × Color) :=
  match p with
  | none => none
  | some r => (s.mem r).map fun nd => (nd.key, nd.color)

/-- The tree containing only the key 10 (value 1): `insert(10, 1)` on
the empty tree. -/
def store10 : Store := storeAfter [Op.ins 10 1]

/-- A two-node tree: keys 10 and 5. -/
def store105 : Store := storeAfter [Op.ins 10 1, Op.ins 5 2]

/-- The scenario tree of the specification: keys 10, 20, 30 inserted in
that order. -/
def store123 : Store := storeAfter [Op.ins 10 0, Op.ins 20 0, Op.ins 30 0]

/-- The scenario tree after the subsequent `erase(20)`. -/
def store123e : Store := storeAfter [Op.ins 10 0, Op.ins 20 0, Op.ins 30 0, Op.del 20]

end RBT

namespace TreeNav

/-- Direction from a node to a child. -/
inductive Dir where
  | L
  | R
deriving DecidableEq, Repr

/-- A node position: the list of child moves from the root.  For a
well-formed pointer tree this is exactly the information carried by a
node pointer: the node is `subtreeAt t p`, its parent pointer is the
node at `p.dropLast` (null for the root), and the source's test
`node == p->right` (line 247) is the test that the last move is `.R`.
The reversed path is the parent chain the upward loop of `successor`
walks. -/
abbrev Path := List Dir

/-- A binary search tree with keys.  Colors are omitted: `minimum` and
`successor` (source lines 224-253) never read `color`. -/
inductive Tree where
  | nil
  | node (l : Tree) (key : Nat) (r : Tree)
deriving DecidableEq, Repr

/-- Subtree rooted at the node a path designates (`none` when the path
runs off the tree). -/
def subtreeAt : Tree → Path → Option Tree
  | t, [] => some t
  | .nil, _ :: _ => none
  | .node l _ _, .L :: p => subtreeAt l p
  | .node _ _ r, .R :: p => subtreeAt r p

/-- Whether the path designates a live node (a non-`nil` subtree): a
non-null `Node*`. -/
def isNodeAt (t : Tree) (p : Path) : Bool :=
  match subtreeAt t p with
  | some (.node _ _ _) => true
  | _ => false

/-- Key of the node a path designates. -/
def keyAt (t : Tree) (p : Path) : Option Nat :=
  match subtreeAt t p with
  | some (.node _ k _) => some k
  | _ => none

/-- Source lines 224-231, the loop of `minimum`: follow left children
while one exists.  Returns the path of the leftmost node, relative to
the root of `t`. -/
def leftSpine : Tree → Path
  | .nil => []
  | .node l _ _ =>
    match l with
    | .nil => []
    | .node .. => .L :: leftSpine l

/-- Mirror of `leftSpine`: the path of the rightmost node. -/
def rightSpine : Tree → Path
  | .nil => []
  | .node _ _ r =>
    match r with
    | .nil => []
    | .node .. => .R :: rightSpine r

/-- Source lines 243-252, the upward loop of `successor`, running along
the reversed path (the parent chain): `while (p && node == p->right)
{ node = p; p = p->parent; } return p;`.  A leading `.R` means the
current node is its parent's right child, so climb; a leading `.L`
means it is a left child, so the loop stops and returns the parent; an
exhausted chain is the loop reaching past the root and returning
null. -/
def climb : List Dir → Option (List Dir)
  | [] => none
  | .R :: q => climb q
  | .L :: q => some q

/-- The upward phase of `successor` on root-relative paths. -/
def upSucc (p : Path) : Option Path :=
  (climb p.reverse).map List.reverse

/-- Source lines 234-253, `successor(Node* node)` on paths: no node at
the path is a null pointer, whose successor is null (lines 236-237); a
present right child gives `minimum(node->right)` (lines 240-241);
otherwise the upward loop runs (lines 243-252). -/
def successorP (t : Tree) (p : Path) : Option Path :=
  match subtreeAt t p with
  | some (.node _ _ r) =>
    match r with
    | .nil => upSucc p
    | .node .. => some (p ++ .R :: leftSpine r)
  | _ => none

/-- Source lines 90-93, `begin()`: the path of `minimum(root_)`, null
when the tree is empty. -/
def beginP (t : Tree) : Option Path :=
  match t with
  | .nil => none
  | .node .. => some (leftSpine t)

/-- Iterate `successorP` from a starting position, collecting the
visited positions, stopping at the null position (the end sentinel). -/
def iterSucc (t : Tree) : Nat → Option Path → List Path
  | 0, _ => []
  | _ + 1, none => []
  | fuel + 1, some p => p :: iterSucc t fuel (successorP t p)

/-- In-order list of the positions of all nodes. -/
def inorderPaths : Tree → List Path
  | .nil => []
  | .node l _ r =>
    (inorderPaths l).map (.L :: ·) ++ [[]] ++ (inorderPaths r).map (.R :: ·)

/-- In-order key sequence. -/
def inorderKeys : Tree → List Nat
  | .nil => []
  | .node l k r => inorderKeys l ++ k :: inorderKeys r

/-- Number of nodes. -/
def countNodes : Tree → Nat
  | .nil => 0
  | .node l _ r => countNodes l + countNodes r + 1

/-- Binary-search-tree property with optional strict bounds. -/
def isBSTb : Tree → Option Nat → Option Nat → Bool
  | .nil, _, _ => true
  | .node l k r, lo, hi =>
    (match lo with
     | none => true
     | some a => a < k) &&
    (match hi with
     | none => true
     | some b => k < b) &&
    isBSTb l lo (some k) && isBSTb r (some k) hi

/-- Binary-search-tree property (invariant 1 of the source comment,
lines 33-40). -/
def isBST (t : Tree) : Bool := isBSTb t none none

/-- A concrete three-node search tree used as witness input. -/
def sample3 : Tree := .node (.node .nil 1 .nil) 2 (.node .nil 3 .nil)

end TreeNav

namespace RBT

/-- A tree shadowing the heap, used to state what it means for a store
to hold a well-formed pointer tree: each node records the address it
lives at together with its data. -/
inductive HTree where
  | nil
  | node (ref : Ref) (key val : Nat) (color : Color) (l r : HTree)
deriving DecidableEq, Repr

/-- Address of the tree's root node (the pointer that designates the
tree). -/
def HTree.rootRef : HTree → Option Ref
  | .nil => none
  | .node r _ _ _ _ _ => some r

/-- Addresses of all nodes, in preorder. -/
def HTree.refs : HTree → List Ref
  | .nil => []
  | .node r _ _ _ l rt => r :: (l.refs ++ rt.refs)

/-- In-order key sequence of the shadow tree. -/
def HTree.inorder : HTree → List Nat
  | .nil => []
  | .node _ k _ _ l rt => l.inorder ++ k :: rt.inorder

/-- The store realizes the shadow tree at pointer `p`, with the parent
pointer of its root equal to `par`: every recorded node lives at its
recorded address with exactly the recorded key, value and color, its
child pointers designate the subtrees' roots, and its parent pointer
designates the enclosing node.  This is the well-formedness invariant
of the C++ node graph. -/
def encodes (s : Store) (par : Option Ref) (p : Option Ref) : HTree → Bool
  | .nil => p == none
  | .node r k v c l rt =>
    p == some r &&
    (match s.mem r with
     | none => false
     | some nd =>
       nd.key == k && nd.val == v && nd.color == c && nd.parent == par &&
       encodes s (some r) nd.left l && encodes s (some r) nd.right rt)

/-- Subtree of the shadow tree at a path. -/
def subH : HTree → List TreeNav.Dir → Option HTree
  | t, [] => some t
  | .nil, _ :: _ => none
  | .node _ _ _ _ l _, TreeNav.Dir.L :: p => subH l p
  | .node _ _ _ _ _ rt, TreeNav.Dir.R :: p => subH rt p

/-- Replace the subtree at a path. -/
def replaceH : HTree → List TreeNav.Dir → HTree → HTree
  | _, [], u => u
  | .nil, _ :: _, _ => .nil
  | .node r k v c l rt, TreeNav.Dir.L :: p, u => .node r k v c (replaceH l p u) rt
  | .node r k v c l rt, TreeNav.Dir.R :: p, u => .node r k v c l (replaceH rt p u)

/-- A concrete two-node store (root 10 at address 0 with right child 20
at address 1) and its shadow tree, used as witness input for the
rotation claim. -/
def storeXY : Store :=
  { ((emptyStore.write 0 { key := 10, val := 0, color := Color.BLACK,
                           parent := none, left := none, right := some 1 }).write 1
       { key := 20, val := 0, color := Color.RED,
         parent := some 0, left := none, right := none }) with
    root_ := some 0, size_ := 2, next := 2 }

/-- Shadow tree of `storeXY` rooted at address 0. -/
def htreeXY : HTree :=
  .node 0 10 0 Color.BLACK .nil (.node 1 20 0 Color.RED .nil .nil)

/-- A concrete two-node store mirroring `storeXY`: root 20 at address 0
with left child 10 at address 1, used as witness input for the right
rotation. -/
def storeYX : Store :=
  { ((emptyStore.write 0 { key := 20, val := 0, color := Color.BLACK,
                           parent := none, left := some 1, right := none }).write 1
       { key := 10, val := 0, color := Color.RED,
         parent := some 0, left := none, right := none }) with
    root_ := some 0, size_ := 2, next := 2 }

/-- Shadow tree of `storeYX` rooted at address 0. -/
def htreeYX : HTree :=
  .node 0 20 0 Color.BLACK (.node 1 10 0 Color.RED .nil .nil) .nil

end RBT

namespace RBT

/-- Explicit result store of `rotate_left s xr` on a well-formed input:
the writes of source lines 261-282 laid out as store updates, where
`xn` is `x`'s node (with right child at `yr`) and `yn` is `y`'s node.
`rotate_left_eq` proves `rotate_left` computes exactly this store when
its reads succeed and the touched addresses are distinct. -/
def rlStore (s : Store) (xr yr : Ref) (xn yn : Node) : Store :=
  -- x->right = y->left; if (y->left) y->left->parent = x; (266-268)
  let s1 := (s.write xr { xn with right := yn.left })
  let s2 := match yn.left with
            | none => s1
            | some br =>
              match s.mem br with
              | none => s1
              | some bn => s1.write br { bn with parent := some xr }
  -- y->parent = x->parent; (270)
  let s3 := s2.write yr { yn with parent := xn.parent }
  -- root_ / child-slot update (272-278)
  let s4 := match xn.parent with
            | none => { s3 with root_ := some yr }
            | some pr =>
              match s.mem pr with
              | none => s3
              | some pn =>
                if pn.left == some xr then s3.write pr { pn with left := some yr }
                else s3.write pr { pn with right := some yr }
  -- y->left = x; x->parent = y; (280-281)
  let s5 := s4.write yr { yn with parent := xn.parent, left := some xr }
  s5.write xr { xn with right := yn.left, parent := some yr }

/-- Mirror of `rlStore` for `rotate_right s yr` (source lines 290-306):
`yn` is `y`'s node (with left child at `xr`) and `xn` is `x`'s node. -/
def rrStore (s : Store) (yr xr : Ref) (yn xn : Node) : Store :=
  -- y->left = x->right; if (x->right) x->right->parent = y; (294-296)
  let s1 := (s.write yr { yn with left := xn.right })
  let s2 := match xn.right with
            | none => s1
            | some br =>
              match s.mem br with
              | none => s1
              | some bn => s1.write br { bn with parent := some yr }
  -- x->parent = y->parent; (297)
  let s3 := s2.write xr { xn with parent := yn.parent }
  -- root_ / child-slot update (298-303)
  let s4 := match yn.parent with
            | none => { s3 with root_ := some xr }
            | some pr =>
              match s.mem pr with
              | none => s3
              | some pn =>
                if pn.left == some yr then s3.write pr { pn with left := some xr }
                else s3.write pr { pn with right := some xr }
  -- x->right = y; y->parent = x; (304-305)
  let s5 := s4.write xr { xn with parent := yn.parent, right := some yr }
  s5.write yr { yn with left := xn.right, parent := some xr }

end RBT

-- ===================== further definitions are inserted above =============

-- ===================== theorems =====================

/-- Claim C1: after every finite sequence of `insert` / `erase`
operations from the empty tree, the class invariants hold when each
operation returns.  The code refutes this: the insert sequence
10, 5, 7 drives `fix_insert` into its zig-zag case, whose recoloring
(source lines 330-331) targets the stale `parent` variable instead of
the node promoted by the rotation, so the loop re-enters with a RED-RED
pair at the root and dereferences the null grandparent pointer
(line 315) — the third insert never returns. -/
theorem C1_insert_sequence_crashes :
    RBT.runErr [RBT.Op.ins 10 0, RBT.Op.ins 5 0, RBT.Op.ins 7 0] =
      some RBT.Err.nullDeref := rfl

/-- Claim C2: `find` returns the end iterator for an absent key and an
iterator to the matching node for a present key.  The code refutes the
absent-key half: when the descent loop exits with a null cursor,
control reaches the end of the non-void function without a return
(source lines 108-119), modelled as `Err.missingReturn`; the
present-key half does hold. -/
theorem C2_find_not_found_has_no_return :
    RBT.find RBT.store10 7 = .error RBT.Err.missingReturn ∧
    RBT.find RBT.store10 10 = .ok (some 0) := ⟨rfl, rfl⟩

/-- Claim C3: the delete fixup is total, handles an absent starting
node `X` by tracking its logical parent separately, and checks a
sibling's presence before dereferencing it.  The code refutes this:
`fix_delete` begins with `Node* parent = x->parent;` (line 359) with no
null check on `x`, and its case tests read `w->left` / `w->right`
without checking `w` (lines 373-374, 381, 406-407, 412).  Erasing the
BLACK leaf 30 from the tree built by inserting 10, 20, 30, 5 passes a
null `x` and aborts on the initial dereference. -/
theorem C3_fix_delete_derefs_null_x :
    RBT.runErr [RBT.Op.ins 10 0, RBT.Op.ins 20 0, RBT.Op.ins 30 0, RBT.Op.ins 5 0,
                RBT.Op.del 30] = some RBT.Err.nullDeref := rfl

/-- Claim C4: `erase(key)` returns `false` leaving the tree unchanged
when the key is absent, and otherwise removes the node, preserves the
invariants, decrements `size` and returns `true`.  The absent-key half
holds (first conjunct: erasing 7 from the tree {10} returns `false`
with the very same store).  The present-key half is refuted: erasing
the BLACK leaf 15 from the tree built by inserting 10, 5, 15, 1 calls
`fix_delete` with a null `x` (source line 201) and aborts on
`x->parent` (line 359) instead of returning `true`. -/
theorem C4_erase_absent_ok_present_crashes :
    RBT.erase RBT.store10 7 = .ok (false, RBT.store10) ∧
    RBT.runErr [RBT.Op.ins 10 0, RBT.Op.ins 5 0, RBT.Op.ins 15 0, RBT.Op.ins 1 0,
                RBT.Op.del 15] = some RBT.Err.nullDeref := ⟨rfl, rfl⟩

/-- Claim C5: inserting a present key returns the existing node with
`false` and changes nothing; inserting an absent key creates a RED node
at the correct position, increments `size`, and returns it with `true`.
First conjunct: the duplicate half holds (inserting key 10 again with a
different value returns the existing node, `false`, and the identical
store, so the stored value stays 1).  Second conjunct: the fresh-key
half behaves as claimed on the tree {10} — under the repair of source
line 148, whose `iterator(node)` call of the two-parameter constructor
`iterator(Node*, const rb_tree*)` is ill-formed C++.  Third conjunct:
the fresh-key half is refuted at runtime as well — inserting 15 after
20, 10 (the zig-zag fixup case) crashes on a null grandparent
dereference, so that insert returns nothing at all. -/
theorem C5_insert_contract :
    RBT.insert RBT.store10 10 2 = .ok ((some 0, false), RBT.store10) ∧
    (RBT.insert RBT.store10 5 7).toOption.map
        (fun x => (x.1, x.2.size_, x.2.mem 1, x.2.root_)) =
      some ((some 1, true), 2,
            some { key := 5, val := 7, color := RBT.Color.RED,
                   parent := some 0, left := none, right := none }, some 0) ∧
    RBT.runErr [RBT.Op.ins 20 0, RBT.Op.ins 10 0, RBT.Op.ins 15 0] =
      some RBT.Err.nullDeref := ⟨rfl, rfl, rfl⟩

/-- Claim C6: inserting 10, 20, 30 in order makes 20 the BLACK root
with RED children 10 and 30; erasing 20 then makes 10 or 30 the root,
keeps every class invariant, and leaves size 2.  Confirmed by running
the sequence: the independent validator `validRB` accepts both stores,
the post-erase root is 30, and the size is 2. -/
theorem C6_scenario_10_20_30 :
    ((RBT.rootNode RBT.store123).map fun nd =>
        (nd.key, nd.color, RBT.keyColorAt RBT.store123 nd.left,
         RBT.keyColorAt RBT.store123 nd.right)) =
      some (20, RBT.Color.BLACK, some (10, RBT.Color.RED), some (30, RBT.Color.RED)) ∧
    RBT.validRB RBT.store123 = true ∧
    ((RBT.rootNode RBT.store123e).map RBT.Node.key = some 10 ∨
     (RBT.rootNode RBT.store123e).map RBT.Node.key = some 30) ∧
    RBT.validRB RBT.store123e = true ∧
    RBT.store123e.size_ = 2 :=
  ⟨rfl, rfl, Or.inr rfl, rfl, rfl⟩

/-- Claim C9: incrementing the `end()` iterator is a defined no-op,
because `successor` maps the null node to the null node (source lines
236-237); any number of increments leaves the iterator equal to
`end()`, in every store. -/
theorem C9_increment_past_end (s : RBT.Store) (n : Nat) :
    RBT.successor s none = .ok none ∧
    RBT.incN s n RBT.endIter = .ok RBT.endIter := by
  refine ⟨rfl, ?_⟩
  induction n with
  | zero => rfl
  | succ n ih => simpa [RBT.incN, RBT.preInc, RBT.successor, RBT.endIter] using ih

/-- Claim C10: the postfix increment returns the already advanced
iterator, because `auto tmp = this;` (source line 69) copies the
pointer, not the iterator: both the new iterator state and the returned
object equal the result of the prefix increment. -/
theorem C10_postfix_equals_prefix (s : RBT.Store) (it : RBT.Iterator)
    (_h : it ≠ RBT.endIter) :
    RBT.postInc s it = (RBT.preInc s it).map (fun j => (j, j)) := by
  cases hsucc : RBT.successor s it.node_ <;>
    simp [RBT.postInc, RBT.preInc, hsucc, Except.map]

/-- Witness for C10 at a concrete iterator: the iterator to the root of
the one-node tree {10}. -/
theorem C10_postfix_equals_prefix_witness :
    RBT.Iterator.mk (some 0) ≠ RBT.endIter ∧
    RBT.postInc RBT.store10 (RBT.Iterator.mk (some 0)) =
      (RBT.preInc RBT.store10 (RBT.Iterator.mk (some 0))).map (fun j => (j, j)) :=
  ⟨by decide,
   C10_postfix_equals_prefix RBT.store10 (RBT.Iterator.mk (some 0)) (by decide)⟩

namespace TreeNav

/-- Climbing a parent chain that ends with a left step stops at that
step (or at the root if everything below was right steps). -/
theorem climb_append_L (q : List Dir) :
    climb (q ++ [Dir.L]) = some ((climb q).elim [] (· ++ [Dir.L])) := by
  induction q with
  | nil => rfl
  | cons d q ih =>
    cases d
    · simp [climb]
    · simpa [climb] using ih

/-- Climbing a parent chain that ends with a right step passes through
that step. -/
theorem climb_append_R (q : List Dir) :
    climb (q ++ [Dir.R]) = (climb q).map (· ++ [Dir.R]) := by
  induction q with
  | nil => rfl
  | cons d q ih =>
    cases d
    · simp [climb]
    · simpa [climb] using ih

/-- The upward phase of `successor`, viewed one level below a left
edge: it either stays inside the subtree or stops at the subtree's
parent. -/
theorem upSucc_cons_L (p : Path) :
    upSucc (Dir.L :: p) = some ((upSucc p).elim [] (Dir.L :: ·)) := by
  unfold upSucc
  rw [List.reverse_cons, climb_append_L]
  cases h : climb p.reverse <;> simp [h]

/-- The upward phase of `successor`, viewed one level below a right
edge: it propagates out of the subtree. -/
theorem upSucc_cons_R (p : Path) :
    upSucc (Dir.R :: p) = (upSucc p).map (Dir.R :: ·) := by
  unfold upSucc
  rw [List.reverse_cons, climb_append_R]
  cases h : climb p.reverse <;> simp [h]

/-- Successor steps inside a left subtree embed into the whole tree. -/
theorem successorP_cons_L_some (l : Tree) (k : Nat) (r : Tree) (p q : Path)
    (h : successorP l p = some q) :
    successorP (Tree.node l k r) (Dir.L :: p) = some (Dir.L :: q) := by
  unfold successorP at h ⊢
  rw [show subtreeAt (Tree.node l k r) (Dir.L :: p) = subtreeAt l p from rfl]
  cases hs : subtreeAt l p with
  | none => rw [hs] at h; exact Option.noConfusion h
  | some t' =>
    rw [hs] at h
    cases t' with
    | nil => exact Option.noConfusion h
    | node a kk b =>
      cases b with
      | nil =>
        replace h : upSucc p = some q := h
        show upSucc (Dir.L :: p) = some (Dir.L :: q)
        rw [upSucc_cons_L, h]
        rfl
      | node x y z =>
        replace h : some (p ++ Dir.R :: leftSpine (Tree.node x y z)) = some q := h
        injection h with h
        subst h
        show some ((Dir.L :: p) ++ Dir.R :: leftSpine (Tree.node x y z)) =
          some (Dir.L :: (p ++ Dir.R :: leftSpine (Tree.node x y z)))
        rfl

/-- The final successor step inside a left subtree lands on the
subtree's parent. -/
theorem successorP_cons_L_none (l : Tree) (k : Nat) (r : Tree) (p : Path)
    (hn : isNodeAt l p = true) (h : successorP l p = none) :
    successorP (Tree.node l k r) (Dir.L :: p) = some [] := by
  unfold isNodeAt at hn
  unfold successorP at h ⊢
  rw [show subtreeAt (Tree.node l k r) (Dir.L :: p) = subtreeAt l p from rfl]
  cases hs : subtreeAt l p with
  | none => rw [hs] at hn; exact Bool.noConfusion hn
  | some t' =>
    rw [hs] at h hn
    cases t' with
    | nil => exact Bool.noConfusion hn
    | node a kk b =>
      cases b with
      | nil =>
        replace h : upSucc p = none := h
        show upSucc (Dir.L :: p) = some []
        rw [upSucc_cons_L, h]
        rfl
      | node x y z => exact Option.noConfusion h

/-- Successor steps inside a right subtree embed into the whole tree. -/
theorem successorP_cons_R_some (l : Tree) (k : Nat) (r : Tree) (p q : Path)
    (h : successorP r p = some q) :
    successorP (Tree.node l k r) (Dir.R :: p) = some (Dir.R :: q) := by
  unfold successorP at h ⊢
  rw [show subtreeAt (Tree.node l k r) (Dir.R :: p) = subtreeAt r p from rfl]
  cases hs : subtreeAt r p with
  | none => rw [hs] at h; exact Option.noConfusion h
  | some t' =>
    rw [hs] at h
    cases t' with
    | nil => exact Option.noConfusion h
    | node a kk b =>
      cases b with
      | nil =>
        replace h : upSucc p = some q := h
        show upSucc (Dir.R :: p) = some (Dir.R :: q)
        rw [upSucc_cons_R, h]
        rfl
      | node x y z =>
        replace h : some (p ++ Dir.R :: leftSpine (Tree.node x y z)) = some q := h
        injection h with h
        subst h
        show some ((Dir.R :: p) ++ Dir.R :: leftSpine (Tree.node x y z)) =
          some (Dir.R :: (p ++ Dir.R :: leftSpine (Tree.node x y z)))
        rfl

/-- The last node of a right subtree is the last node of the whole
tree: its successor is null. -/
theorem successorP_cons_R_none (l : Tree) (k : Nat) (r : Tree) (p : Path)
    (hn : isNodeAt r p = true) (h : successorP r p = none) :
    successorP (Tree.node l k r) (Dir.R :: p) = none := by
  unfold isNodeAt at hn
  unfold successorP at h ⊢
  rw [show subtreeAt (Tree.node l k r) (Dir.R :: p) = subtreeAt r p from rfl]
  cases hs : subtreeAt r p with
  | none => rw [hs] at hn
  | some t' =>
    rw [hs] at h hn
    cases t' with
    | nil => exact Bool.noConfusion hn
    | node a kk b =>
      cases b with
      | nil =>
        replace h : upSucc p = none := h
        show upSucc (Dir.R :: p) = none
        rw [upSucc_cons_R, h]
        rfl
      | node x y z => exact Option.noConfusion h

/-- The root of a tree without right subtree has no successor. -/
theorem successorP_root_nil (l : Tree) (k : Nat) :
    successorP (Tree.node l k Tree.nil) [] = none := rfl

/-- The successor of the root, when a right subtree exists, is the
leftmost node of that subtree. -/
theorem successorP_root_node (l : Tree) (k : Nat) (r : Tree) (h : r ≠ Tree.nil) :
    successorP (Tree.node l k r) [] = some (Dir.R :: leftSpine r) := by
  cases r with
  | nil => exact absurd rfl h
  | node a b c => rfl

/-- The left spine designates a node in every non-empty tree. -/
theorem isNodeAt_leftSpine (t : Tree) (h : t ≠ Tree.nil) :
    isNodeAt t (leftSpine t) = true := by
  induction t with
  | nil => exact absurd rfl h
  | node l k r ihl ihr =>
    cases l with
    | nil => rfl
    | node a b c =>
      exact ihl (fun hh => Tree.noConfusion hh)

/-- The right spine designates a node in every non-empty tree. -/
theorem isNodeAt_rightSpine (t : Tree) (h : t ≠ Tree.nil) :
    isNodeAt t (rightSpine t) = true := by
  induction t with
  | nil => exact absurd rfl h
  | node l k r ihl ihr =>
    cases r with
    | nil => rfl
    | node a b c =>
      exact ihr (fun hh => Tree.noConfusion hh)

/-- The rightmost node of a non-empty tree has no successor (the
upward loop of the source exits at the root and returns null). -/
theorem successorP_rightSpine (t : Tree) (h : t ≠ Tree.nil) :
    successorP t (rightSpine t) = none := by
  induction t with
  | nil => exact absurd rfl h
  | node l k r ihl ihr =>
    cases r with
    | nil => exact successorP_root_nil l k
    | node a b c =>
      exact successorP_cons_R_none l k _ _
        (isNodeAt_rightSpine _ (fun hh => Tree.noConfusion hh))
        (ihr (fun hh => Tree.noConfusion hh))

/-- The in-order position list has one entry per node. -/
theorem inorderPaths_length (t : Tree) :
    (inorderPaths t).length = countNodes t := by
  induction t with
  | nil => rfl
  | node l k r ihl ihr =>
    simp [inorderPaths, countNodes, ihl, ihr]
    omega

/-- A non-empty tree has a non-empty position list. -/
theorem inorderPaths_ne_nil (t : Tree) (h : t ≠ Tree.nil) :
    inorderPaths t ≠ [] := by
  cases t with
  | nil => exact absurd rfl h
  | node l k r => simp [inorderPaths]

/-- The first in-order position is the left spine (`begin()`). -/
theorem inorderPaths_head (t : Tree) (h : t ≠ Tree.nil) :
    (inorderPaths t).head? = some (leftSpine t) := by
  induction t with
  | nil => exact absurd rfl h
  | node l k r ihl ihr =>
    cases l with
    | nil => rfl
    | node a b c =>
      have hne : inorderPaths (Tree.node a b c) ≠ [] :=
        inorderPaths_ne_nil _ (fun hh => Tree.noConfusion hh)
      have hmapne : (inorderPaths (Tree.node a b c)).map (Dir.L :: ·) ≠ [] := by
        simpa using hne
      rw [inorderPaths, List.append_assoc,
          List.head?_append_of_ne_nil _ hmapne, List.head?_map,
          ihl (fun hh => Tree.noConfusion hh)]
      rfl

/-- The last in-order position is the right spine. -/
theorem inorderPaths_getLast (t : Tree) (h : t ≠ Tree.nil) :
    (inorderPaths t).getLast? = some (rightSpine t) := by
  induction t with
  | nil => exact absurd rfl h
  | node l k r ihl ihr =>
    cases r with
    | nil =>
      rw [inorderPaths]
      simp [List.getLast?_concat, rightSpine, inorderPaths]
    | node a b c =>
      have hne : inorderPaths (Tree.node a b c) ≠ [] :=
        inorderPaths_ne_nil _ (fun hh => Tree.noConfusion hh)
      have hmapne : (inorderPaths (Tree.node a b c)).map (Dir.R :: ·) ≠ [] := by
        simpa using hne
      rw [inorderPaths, List.getLast?_append_of_ne_nil _ hmapne, List.getLast?_map,
          ihr (fun hh => Tree.noConfusion hh)]
      rfl

/-- Consecutive in-order positions are successor steps: the source's
`successor` sends each node of the in-order list to the next one. -/
theorem chain'_inorderPaths (t : Tree) :
    List.Chain' (fun p q => successorP t p = some q) (inorderPaths t) := by
  induction t with
  | nil => simp [inorderPaths]
  | node l k r ihl ihr =>
    rw [inorderPaths, List.chain'_append]
    refine ⟨?_, ?_, ?_⟩
    · rw [List.chain'_append]
      refine ⟨?_, List.chain'_singleton _, ?_⟩
      · rw [List.chain'_map]
        exact ihl.imp (fun p q hpq => successorP_cons_L_some l k r p q hpq)
      · intro x hx y hy
        simp only [List.head?_cons, Option.mem_def, Option.some.injEq] at hy
        subst hy
        rw [List.getLast?_map] at hx
        cases hl : l with
        | nil => rw [hl] at hx; cases hx
        | node a b c =>
          rw [hl, inorderPaths_getLast _ (fun hh => Tree.noConfusion hh)] at hx
          simp only [Option.map_some', Option.mem_def, Option.some.injEq] at hx
          subst hx
          exact successorP_cons_L_none _ k r _
            (isNodeAt_rightSpine _ (fun hh => Tree.noConfusion hh))
            (successorP_rightSpine _ (fun hh => Tree.noConfusion hh))
    · rw [List.chain'_map]
      exact ihr.imp (fun p q hpq => successorP_cons_R_some l k r p q hpq)
    · intro x hx y hy
      rw [List.getLast?_concat] at hx
      simp only [Option.mem_def, Option.some.injEq] at hx
      subst hx
      rw [List.head?_map] at hy
      cases hr : r with
      | nil => rw [hr] at hy; cases hy
      | node a b c =>
        rw [hr, inorderPaths_head _ (fun hh => Tree.noConfusion hh)] at hy
        simp only [Option.map_some', Option.mem_def, Option.some.injEq] at hy
        subst hy
        exact successorP_root_node l k _ (fun hh => Tree.noConfusion hh)

end TreeNav

namespace TreeNav

/-- A path designates a node exactly when it occurs in the in-order
position list. -/
theorem isNodeAt_iff_mem (t : Tree) (p : Path) :
    isNodeAt t p = true ↔ p ∈ inorderPaths t := by
  induction t generalizing p with
  | nil =>
    cases p with
    | nil => simp [isNodeAt, subtreeAt, inorderPaths]
    | cons d q => simp [isNodeAt, subtreeAt, inorderPaths]
  | node l k r ihl ihr =>
    cases p with
    | nil => simp [isNodeAt, subtreeAt, inorderPaths]
    | cons d q =>
      cases d
      · rw [show isNodeAt (Tree.node l k r) (Dir.L :: q) = isNodeAt l q from rfl, ihl]
        simp [inorderPaths]
      · rw [show isNodeAt (Tree.node l k r) (Dir.R :: q) = isNodeAt r q from rfl, ihr]
        simp [inorderPaths]

/-- No position repeats in the in-order position list. -/
theorem inorderPaths_nodup (t : Tree) : (inorderPaths t).Nodup := by
  induction t with
  | nil => simp [inorderPaths]
  | node l k r ihl ihr =>
    have hinjL : Function.Injective (fun p => (Dir.L :: p : Path)) := by
      intro a b hab
      injection hab
    have hinjR : Function.Injective (fun p => (Dir.R :: p : Path)) := by
      intro a b hab
      injection hab
    rw [inorderPaths]
    refine List.Nodup.append (List.Nodup.append (ihl.map hinjL) (by simp) ?_)
      (ihr.map hinjR) ?_
    · intro x hxA hx1
      simp only [List.mem_singleton] at hx1
      subst hx1
      simp [List.mem_map] at hxA
    · intro x hx hxB
      simp only [List.mem_map] at hxB
      obtain ⟨b, _, hb⟩ := hxB
      rcases List.mem_append.mp hx with hxA | hx1
      · simp only [List.mem_map] at hxA
        obtain ⟨a, _, ha⟩ := hxA
        rw [← ha] at hb
        injection hb with h1 h2
        exact Dir.noConfusion h1
      · simp only [List.mem_singleton] at hx1
        subst hx1
        exact List.noConfusion hb

/-- The keys read along the in-order positions are the in-order key
sequence. -/
theorem keyAt_inorderPaths (t : Tree) :
    (inorderPaths t).map (keyAt t) = (inorderKeys t).map some := by
  induction t with
  | nil => rfl
  | node l k r ihl ihr =>
    have h1 : keyAt (Tree.node l k r) ∘ (fun p => (Dir.L :: p : Path)) = keyAt l :=
      funext fun p => rfl
    have h2 : keyAt (Tree.node l k r) ∘ (fun p => (Dir.R :: p : Path)) = keyAt r :=
      funext fun p => rfl
    rw [inorderPaths, inorderKeys]
    simp only [List.map_append, List.map_map, h1, h2, ihl, ihr, List.map_cons,
               List.map_nil, List.nil_append, List.cons_append, List.append_assoc]
    rfl

/-- Keys of a bounded search tree respect the bounds. -/
theorem isBSTb_bounds (t : Tree) (lo hi : Option Nat) (h : isBSTb t lo hi = true) :
    ∀ x ∈ inorderKeys t,
      (∀ a, lo = some a → a < x) ∧ (∀ b, hi = some b → x < b) := by
  induction t generalizing lo hi with
  | nil => simp [inorderKeys]
  | node l k r ihl ihr =>
    simp only [isBSTb, Bool.and_eq_true] at h
    obtain ⟨⟨⟨hlo, hhi⟩, hl⟩, hr⟩ := h
    intro x hx
    rw [inorderKeys, List.mem_append, List.mem_cons] at hx
    rcases hx with hx | hx | hx
    · obtain ⟨hxlo, hxk⟩ := ihl lo (some k) hl x hx
      refine ⟨hxlo, fun b hb => ?_⟩
      have hkx : x < k := hxk k rfl
      cases hi with
      | none => cases hb
      | some b' =>
        injection hb with hb'
        subst hb'
        exact hkx.trans (by simpa using hhi)
    · subst hx
      constructor
      · intro a ha
        subst ha
        simpa using hlo
      · intro b hb
        subst hb
        simpa using hhi
    · obtain ⟨hxk, hxhi⟩ := ihr (some k) hi hr x hx
      refine ⟨fun a ha => ?_, hxhi⟩
      have hkx : k < x := hxk k rfl
      cases lo with
      | none => cases ha
      | some a' =>
        injection ha with ha'
        subst ha'
        exact lt_trans (by simpa using hlo) hkx

/-- The in-order key sequence of a binary search tree is strictly
ascending. -/
theorem isBSTb_sorted (t : Tree) (lo hi : Option Nat) (h : isBSTb t lo hi = true) :
    List.Sorted (· < ·) (inorderKeys t) := by
  induction t generalizing lo hi with
  | nil => simp [inorderKeys]
  | node l k r ihl ihr =>
    simp only [isBSTb, Bool.and_eq_true] at h
    obtain ⟨⟨⟨_, _⟩, hl⟩, hr⟩ := h
    rw [inorderKeys]
    show List.Pairwise (· < ·) _
    rw [List.pairwise_append]
    refine ⟨ihl lo (some k) hl, ?_, ?_⟩
    · rw [List.pairwise_cons]
      exact ⟨fun y hy => (isBSTb_bounds r (some k) hi hr y hy).1 k rfl,
             ihr (some k) hi hr⟩
    · intro a ha b hb
      have hak : a < k := (isBSTb_bounds l lo (some k) hl a ha).2 k rfl
      rcases List.mem_cons.mp hb with rfl | hb
      · exact hak
      · exact hak.trans ((isBSTb_bounds r (some k) hi hr b hb).1 k rfl)

/-- Iterating from the null position yields nothing, whatever the
fuel. -/
theorem iterSucc_none (t : Tree) (k : Nat) : iterSucc t k none = [] := by
  cases k with
  | zero => rfl
  | succ k => rfl

/-- Iterating the successor map along a successor chain that ends at a
position with no successor reproduces the chain, with any surplus
fuel. -/
theorem iterSucc_eq_of_chain (t : Tree) (ps : List Path)
    (hch : List.Chain' (fun p q => successorP t p = some q) ps)
    (hlast : ∀ p, ps.getLast? = some p → successorP t p = none) :
    ∀ k, iterSucc t (ps.length + k) ps.head? = ps := by
  induction ps with
  | nil =>
    intro k
    simpa using iterSucc_none t k
  | cons p ps ih =>
    intro k
    have hsucc : ps.length + 1 + k = (ps.length + k) + 1 := by omega
    rw [List.length_cons, List.head?_cons, hsucc]
    show p :: iterSucc t (ps.length + k) (successorP t p) = p :: ps
    cases ps with
    | nil =>
      have hnone := hlast p (by simp)
      rw [hnone, iterSucc_none]
    | cons q ps' =>
      have hpq : successorP t p = some q := (List.chain'_cons.mp hch).1
      have hch' := (List.chain'_cons.mp hch).2
      have hlast' : ∀ x, (q :: ps').getLast? = some x → successorP t x = none := by
        intro x hx
        exact hlast x (by rw [List.getLast?_cons_cons]; exact hx)
      have := ih hch' hlast' k
      rw [hpq]
      rw [show (some q : Option Path) = (q :: ps').head? from rfl]
      rw [this]

end TreeNav

/-- Claim C7: in every non-empty binary search tree, iterating from
`begin()` (the minimum, reached by the left spine) through repeated
`successor` steps until the null sentinel visits exactly the in-order
positions — every node exactly once — and reads the keys in strictly
ascending order.  `successorP` is the source's `successor`
(lines 234-253) with node pointers rendered as root paths and the
parent-pointer walk as the reversed-path climb. -/
theorem C7_inorder_iteration (t : TreeNav.Tree) (hb : TreeNav.isBST t = true)
    (hne : t ≠ TreeNav.Tree.nil) (k : Nat) :
    TreeNav.iterSucc t (TreeNav.countNodes t + k) (TreeNav.beginP t) =
      TreeNav.inorderPaths t ∧
    (TreeNav.inorderPaths t).map (TreeNav.keyAt t) =
      (TreeNav.inorderKeys t).map some ∧
    List.Sorted (· < ·) (TreeNav.inorderKeys t) ∧
    (TreeNav.inorderPaths t).Nodup ∧
    (∀ p, TreeNav.isNodeAt t p = true ↔ p ∈ TreeNav.inorderPaths t) := by
  have hlast : ∀ p, (TreeNav.inorderPaths t).getLast? = some p →
      TreeNav.successorP t p = none := by
    intro p hp
    rw [TreeNav.inorderPaths_getLast t hne] at hp
    injection hp with hp
    subst hp
    exact TreeNav.successorP_rightSpine t hne
  have hbegin : TreeNav.beginP t = (TreeNav.inorderPaths t).head? := by
    cases t with
    | nil => exact absurd rfl hne
    | node l kk r =>
      rw [TreeNav.inorderPaths_head _ hne]
      rfl
  refine ⟨?_, TreeNav.keyAt_inorderPaths t, TreeNav.isBSTb_sorted t none none hb,
          TreeNav.inorderPaths_nodup t, fun p => TreeNav.isNodeAt_iff_mem t p⟩
  rw [hbegin, ← TreeNav.inorderPaths_length t]
  exact TreeNav.iterSucc_eq_of_chain t _ (TreeNav.chain'_inorderPaths t) hlast k

/-- Witness for C7 on the concrete three-node search tree with keys
1, 2, 3. -/
theorem C7_inorder_iteration_witness :
    TreeNav.iterSucc TreeNav.sample3 (TreeNav.countNodes TreeNav.sample3 + 0)
        (TreeNav.beginP TreeNav.sample3) = TreeNav.inorderPaths TreeNav.sample3 ∧
    List.Sorted (· < ·) (TreeNav.inorderKeys TreeNav.sample3) :=
  have h := C7_inorder_iteration TreeNav.sample3 (by decide) (by decide) 0
  ⟨h.1, h.2.2.1⟩

namespace RBT

/-- Reading the address just written. -/
theorem mem_write_self (s : Store) (r : Ref) (nd : Node) :
    (s.write r nd).mem r = some nd := by
  simp [Store.write]

/-- Reading a different address after a write. -/
theorem mem_write_ne (s : Store) (r : Ref) (nd : Node) (q : Ref) (h : q ≠ r) :
    (s.write r nd).mem q = s.mem q := by
  simp [Store.write, h]

/-- A write does not move the root pointer. -/
theorem root_write (s : Store) (r : Ref) (nd : Node) :
    (s.write r nd).root_ = s.root_ := rfl

/-- On a well-formed input — `x` present with a present right child
`y`, and `y`'s left child, and `x`'s parent, when present, live at
addresses distinct from the other touched nodes — `rotate_left`
succeeds and produces exactly the explicit write sequence `rlStore`. -/
theorem rotate_left_eq (s : Store) (xr yr : Ref) (xn yn : Node)
    (hx : s.mem xr = some xn) (hxr : xn.right = some yr)
    (hy : s.mem yr = some yn) (hxy : xr ≠ yr)
    (hb : ∀ br, yn.left = some br → br ≠ xr ∧ br ≠ yr ∧ ∃ bn, s.mem br = some bn)
    (hp : ∀ pr, xn.parent = some pr → pr ≠ xr ∧ pr ≠ yr ∧
          yn.left ≠ some pr ∧ ∃ pn, s.mem pr = some pn) :
    rotate_left s xr = .ok (rlStore s xr yr xn yn) := by
  have hyx : yr ≠ xr := Ne.symm hxy
  unfold rotate_left rlStore
  cases hbl : yn.left with
  | none =>
    cases hpp : xn.parent with
    | none =>
      simp [hx, hxr, hy, hbl, hpp, deref, setParent, setLeft, setRight,
            mem_write_self, mem_write_ne, hyx, hxy]
    | some pr =>
      obtain ⟨hpx, hpy, hpb, pn, hpn⟩ := hp pr hpp
      have hxp : xr ≠ pr := Ne.symm hpx
      have hyp : yr ≠ pr := Ne.symm hpy
      cases hpl : pn.left == some xr <;>
        simp [hx, hxr, hy, hbl, hpp, hpn, hpl, deref, setParent, setLeft, setRight,
              mem_write_self, mem_write_ne, hyx, hxy, hpx, hpy, hxp, hyp]
  | some br =>
    obtain ⟨hbx, hby, bn, hbn⟩ := hb br hbl
    have hxb : xr ≠ br := Ne.symm hbx
    have hyb : yr ≠ br := Ne.symm hby
    cases hpp : xn.parent with
    | none =>
      simp [hx, hxr, hy, hbl, hpp, hbn, deref, setParent, setLeft, setRight,
            mem_write_self, mem_write_ne, hyx, hxy, hbx, hby, hxb, hyb]
    | some pr =>
      obtain ⟨hpx, hpy, hpb, pn, hpn⟩ := hp pr hpp
      have hpbr : pr ≠ br := by
        intro hh
        rw [hbl, hh] at hpb
        exact hpb rfl
      have hxp : xr ≠ pr := Ne.symm hpx
      have hyp : yr ≠ pr := Ne.symm hpy
      have hbp : br ≠ pr := Ne.symm hpbr
      cases hpl : pn.left == some xr <;>
        simp [hx, hxr, hy, hbl, hpp, hbn, hpn, hpl, deref, setParent, setLeft,
              setRight, mem_write_self, mem_write_ne, hyx, hxy, hbx, hby, hpx,
              hpy, hpbr, hxb, hyb, hxp, hyp, hbp]

end RBT

namespace RBT

/-- Mirror of `rotate_left_eq` for `rotate_right`: on a well-formed
input it succeeds and produces exactly `rrStore`. -/
theorem rotate_right_eq (s : Store) (yr xr : Ref) (yn xn : Node)
    (hy : s.mem yr = some yn) (hyl : yn.left = some xr)
    (hx : s.mem xr = some xn) (hyx : yr ≠ xr)
    (hb : ∀ br, xn.right = some br → br ≠ yr ∧ br ≠ xr ∧ ∃ bn, s.mem br = some bn)
    (hp : ∀ pr, yn.parent = some pr → pr ≠ yr ∧ pr ≠ xr ∧
          xn.right ≠ some pr ∧ ∃ pn, s.mem pr = some pn) :
    rotate_right s yr = .ok (rrStore s yr xr yn xn) := by
  have hxy : xr ≠ yr := Ne.symm hyx
  unfold rotate_right rrStore
  cases hbl : xn.right with
  | none =>
    cases hpp : yn.parent with
    | none =>
      simp [hy, hyl, hx, hbl, hpp, deref, setParent, setLeft, setRight,
            mem_write_self, mem_write_ne, hyx, hxy]
    | some pr =>
      obtain ⟨hpy, hpx, hpb, pn, hpn⟩ := hp pr hpp
      have hyp : yr ≠ pr := Ne.symm hpy
      have hxp : xr ≠ pr := Ne.symm hpx
      cases hpl : pn.left == some yr <;>
        simp [hy, hyl, hx, hbl, hpp, hpn, hpl, deref, setParent, setLeft, setRight,
              mem_write_self, mem_write_ne, hyx, hxy, hpy, hpx, hyp, hxp]
  | some br =>
    obtain ⟨hby, hbx, bn, hbn⟩ := hb br hbl
    have hyb : yr ≠ br := Ne.symm hby
    have hxb : xr ≠ br := Ne.symm hbx
    cases hpp : yn.parent with
    | none =>
      simp [hy, hyl, hx, hbl, hpp, hbn, deref, setParent, setLeft, setRight,
            mem_write_self, mem_write_ne, hyx, hxy, hby, hbx, hyb, hxb]
    | some pr =>
      obtain ⟨hpy, hpx, hpb, pn, hpn⟩ := hp pr hpp
      have hpbr : pr ≠ br := by
        intro hh
        rw [hbl, hh] at hpb
        exact hpb rfl
      have hyp : yr ≠ pr := Ne.symm hpy
      have hxp : xr ≠ pr := Ne.symm hpx
      have hbp : br ≠ pr := Ne.symm hpbr
      cases hpl : pn.left == some yr <;>
        simp [hy, hyl, hx, hbl, hpp, hbn, hpn, hpl, deref, setParent, setLeft,
              setRight, mem_write_self, mem_write_ne, hyx, hxy, hby, hbx, hpy,
              hpx, hpbr, hyb, hxb, hyp, hxp, hbp]

end RBT

namespace RBT

/-- Destructor for `encodes` at a node. -/
theorem encodes_node_elim (s : Store) (par p : Option Ref) (r : Ref) (k v : Nat)
    (c : Color) (l rt : HTree)
    (h : encodes s par p (HTree.node r k v c l rt) = true) :
    p = some r ∧ ∃ nd, s.mem r = some nd ∧ nd.key = k ∧ nd.val = v ∧ nd.color = c ∧
      nd.parent = par ∧ encodes s (some r) nd.left l = true ∧
      encodes s (some r) nd.right rt = true := by
  rw [encodes, Bool.and_eq_true] at h
  obtain ⟨hpr, h⟩ := h
  cases hmem : s.mem r with
  | none => rw [hmem] at h; exact Bool.noConfusion h
  | some nd =>
    rw [hmem] at h
    simp only [Bool.and_eq_true, beq_iff_eq] at h hpr
    obtain ⟨⟨⟨⟨⟨hk, hv⟩, hc⟩, hpar⟩, hl⟩, hr⟩ := h
    exact ⟨hpr, nd, rfl, hk, hv, hc, hpar, hl, hr⟩

/-- Constructor for `encodes` at a node. -/
theorem encodes_node_intro (s : Store) (par : Option Ref) (r : Ref) (k v : Nat)
    (c : Color) (l rt : HTree) (nd : Node)
    (hmem : s.mem r = some nd) (hk : nd.key = k) (hv : nd.val = v)
    (hc : nd.color = c) (hpar : nd.parent = par)
    (hl : encodes s (some r) nd.left l = true)
    (hr : encodes s (some r) nd.right rt = true) :
    encodes s par (some r) (HTree.node r k v c l rt) = true := by
  rw [encodes, hmem]
  simp [hk, hv, hc, hpar, hl, hr]

/-- Every recorded address of an encoded tree is live in the store. -/
theorem encodes_mem_of_ref (s : Store) : ∀ (t : HTree) (par p : Option Ref),
    encodes s par p t = true → ∀ r ∈ t.refs, ∃ nd, s.mem r = some nd := by
  intro t
  induction t with
  | nil => intro par p _ r hr; exact absurd hr (by simp [HTree.refs])
  | node r0 k v c l rt ihl ihr =>
    intro par p h q hq
    obtain ⟨hpr, nd, hmem, _, _, _, _, hl, hr⟩ := encodes_node_elim s par p r0 k v c l rt h
    rw [HTree.refs, List.mem_cons, List.mem_append] at hq
    rcases hq with hq | hq | hq
    · exact hq ▸ ⟨nd, hmem⟩
    · exact ihl (some r0) nd.left hl q hq
    · exact ihr (some r0) nd.right hr q hq

/-- Being encoded only depends on the store at the recorded
addresses. -/
theorem encodes_frame (s s' : Store) : ∀ (t : HTree) (par p : Option Ref),
    encodes s par p t = true → (∀ r ∈ t.refs, s'.mem r = s.mem r) →
    encodes s' par p t = true := by
  intro t
  induction t with
  | nil => intro par p h _; exact h
  | node r0 k v c l rt ihl ihr =>
    intro par p h hsame
    obtain ⟨hpr, nd, hmem, hk, hv, hc, hpar, hl, hr⟩ :=
      encodes_node_elim s par p r0 k v c l rt h
    subst hpr
    refine encodes_node_intro s' par r0 k v c l rt nd ?_ hk hv hc hpar ?_ ?_
    · rw [hsame r0 (by simp [HTree.refs]), hmem]
    · exact ihl (some r0) nd.left hl
        (fun q hq => hsame q
          (by simp only [HTree.refs, List.mem_cons, List.mem_append]
              exact Or.inr (Or.inl hq)))
    · exact ihr (some r0) nd.right hr
        (fun q hq => hsame q
          (by simp only [HTree.refs, List.mem_cons, List.mem_append]
              exact Or.inr (Or.inr hq)))

/-- The root address belongs to the address list. -/
theorem rootRef_mem_refs (t : HTree) (r : Ref) (h : t.rootRef = some r) :
    r ∈ t.refs := by
  cases t with
  | nil => exact Option.noConfusion h
  | node r0 k v c l rt =>
    injection h with h
    subst h
    simp [HTree.refs]

/-- Unpacking `Nodup` of a node's address list. -/
theorem nodup_refs_node (r : Ref) (k v : Nat) (c : Color) (l rt : HTree)
    (h : (HTree.node r k v c l rt).refs.Nodup) :
    r ∉ l.refs ∧ r ∉ rt.refs ∧ l.refs.Nodup ∧ rt.refs.Nodup ∧
      ∀ q ∈ l.refs, q ∉ rt.refs := by
  rw [HTree.refs, List.nodup_cons, List.mem_append, List.nodup_append] at h
  push_neg at h
  obtain ⟨⟨h1, h2⟩, h3, h4, h5⟩ := h
  exact ⟨h1, h2, h3, h4, fun q hq hq2 => h5 hq hq2⟩

/-- Addresses of a subtree are addresses of the tree. -/
theorem refs_subH_subset : ∀ (p : List TreeNav.Dir) (T u : HTree),
    subH T p = some u → ∀ r ∈ u.refs, r ∈ T.refs := by
  intro p
  induction p with
  | nil =>
    intro T u h r hr
    rw [subH] at h
    injection h with h
    exact h ▸ hr
  | cons d p ih =>
    intro T u h r hr
    cases T with
    | nil => rw [subH] at h; exact Option.noConfusion h
    | node r0 k v c l rt =>
      cases d with
      | L =>
        rw [subH] at h
        have := ih l u h r hr
        simp [HTree.refs, List.mem_append, this]
      | R =>
        rw [subH] at h
        have := ih rt u h r hr
        simp [HTree.refs, List.mem_append, this]

/-- A subtree of a tree with distinct addresses has distinct
addresses. -/
theorem nodup_refs_subH : ∀ (p : List TreeNav.Dir) (T u : HTree),
    subH T p = some u → T.refs.Nodup → u.refs.Nodup := by
  intro p
  induction p with
  | nil =>
    intro T u h hn
    rw [subH] at h
    injection h with h
    exact h ▸ hn
  | cons d p ih =>
    intro T u h hn
    cases T with
    | nil => rw [subH] at h; exact Option.noConfusion h
    | node r0 k v c l rt =>
      obtain ⟨_, _, hnl, hnr, _⟩ := nodup_refs_node r0 k v c l rt hn
      cases d with
      | L => rw [subH] at h; exact ih l u h hnl
      | R => rw [subH] at h; exact ih rt u h hnr

/-- The pointer under which a tree is encoded is its root address. -/
theorem encodes_ptr_eq_rootRef (s : Store) (par p : Option Ref) (t : HTree)
    (h : encodes s par p t = true) : p = t.rootRef := by
  cases t with
  | nil =>
    rw [encodes, beq_iff_eq] at h
    exact h
  | node r0 k v c l rt =>
    exact (encodes_node_elim s par p r0 k v c l rt h).1

/-- Navigating an encoded tree to a subtree: the subtree is encoded at
its own root under some parent pointer `par'`, which is the outer `par`
for the empty path and otherwise an address of the tree outside the
subtree. -/
theorem encodes_parent_of_sub (s : Store) :
    ∀ (p : List TreeNav.Dir) (T u : HTree) (par : Option Ref),
    encodes s par T.rootRef T = true → T.refs.Nodup → subH T p = some u →
    ∃ par', encodes s par' u.rootRef u = true ∧
      ((p = [] ∧ par' = par) ∨
       (p ≠ [] ∧ ∃ pr, par' = some pr ∧ pr ∈ T.refs ∧ pr ∉ u.refs)) := by
  intro p
  induction p with
  | nil =>
    intro T u par henc _ hsub
    rw [subH] at hsub
    injection hsub with hsub
    subst hsub
    exact ⟨par, henc, Or.inl ⟨rfl, rfl⟩⟩
  | cons d p ih =>
    intro T u par henc hnodup hsub
    cases T with
    | nil => rw [subH] at hsub; exact Option.noConfusion hsub
    | node r0 k v c l rt =>
      obtain ⟨-, nd, hmem, -, -, -, -, hl, hr⟩ :=
        encodes_node_elim s par (some r0) r0 k v c l rt henc
      obtain ⟨hr0l, hr0r, hnl, hnr, hdisj⟩ := nodup_refs_node r0 k v c l rt hnodup
      cases d with
      | L =>
        rw [subH] at hsub
        rw [encodes_ptr_eq_rootRef s (some r0) nd.left l hl] at hl
        obtain ⟨par', henc', hcase⟩ := ih l u (some r0) hl hnl hsub
        refine ⟨par', henc', Or.inr ⟨by simp, ?_⟩⟩
        rcases hcase with ⟨hp, hpar⟩ | ⟨-, pr, hpr, hprT, hpru⟩
        · subst hp
          rw [subH] at hsub
          injection hsub with hsub
          subst hsub
          exact ⟨r0, hpar, by simp [HTree.refs], hr0l⟩
        · refine ⟨pr, hpr, ?_, hpru⟩
          simp only [HTree.refs, List.mem_cons, List.mem_append]
          exact Or.inr (Or.inl hprT)
      | R =>
        rw [subH] at hsub
        rw [encodes_ptr_eq_rootRef s (some r0) nd.right rt hr] at hr
        obtain ⟨par', henc', hcase⟩ := ih rt u (some r0) hr hnr hsub
        refine ⟨par', henc', Or.inr ⟨by simp, ?_⟩⟩
        rcases hcase with ⟨hp, hpar⟩ | ⟨-, pr, hpr, hprT, hpru⟩
        · subst hp
          rw [subH] at hsub
          injection hsub with hsub
          subst hsub
          exact ⟨r0, hpar, by simp [HTree.refs], hr0r⟩
        · refine ⟨pr, hpr, ?_, hpru⟩
          simp only [HTree.refs, List.mem_cons, List.mem_append]
          exact Or.inr (Or.inr hprT)

end RBT

namespace RBT

/-- Pointwise description of the store `rlStore` produces: `x` and `y`
relinked, `y`'s old left child reparented to `x`, `x`'s old parent's
child slot moved to `y`, everything else untouched, and the root moved
to `y` exactly when `x` had no parent. -/
theorem rlStore_mem (s : Store) (xr yr : Ref) (xn yn : Node)
    (hxy : xr ≠ yr)
    (hb : ∀ br, yn.left = some br → br ≠ xr ∧ br ≠ yr)
    (hp : ∀ pr, xn.parent = some pr → pr ≠ xr ∧ pr ≠ yr ∧ yn.left ≠ some pr) :
    (rlStore s xr yr xn yn).mem xr =
        some { xn with right := yn.left, parent := some yr } ∧
    (rlStore s xr yr xn yn).mem yr =
        some { yn with parent := xn.parent, left := some xr } ∧
    (∀ br, yn.left = some br →
       (rlStore s xr yr xn yn).mem br =
         (s.mem br).map fun bn => { bn with parent := some xr }) ∧
    (∀ pr pn, xn.parent = some pr → s.mem pr = some pn →
       (rlStore s xr yr xn yn).mem pr =
         some (if pn.left == some xr then { pn with left := some yr }
               else { pn with right := some yr })) ∧
    (∀ q, q ≠ xr → q ≠ yr → yn.left ≠ some q → xn.parent ≠ some q →
       (rlStore s xr yr xn yn).mem q = s.mem q) ∧
    (rlStore s xr yr xn yn).root_ =
        (match xn.parent with
         | none => some yr
         | some _ => s.root_) := by
  have hyx : yr ≠ xr := Ne.symm hxy
  refine ⟨?_, ?_, ?_, ?_, ?_, ?_⟩
  · simp [rlStore, mem_write_self]
  · simp [rlStore, mem_write_self, mem_write_ne, hyx]
  · intro br hbr
    obtain ⟨hbx, hby⟩ := hb br hbr
    unfold rlStore
    rw [hbr]
    cases hpp : xn.parent with
    | none =>
      cases hmb : s.mem br with
      | none => simp [hmb, mem_write_self, mem_write_ne, hbx, hby]
      | some bn => simp [hmb, mem_write_self, mem_write_ne, hbx, hby]
    | some pr =>
      obtain ⟨hpx, hpy, hpb⟩ := hp pr hpp
      have hbp : br ≠ pr := by
        intro hh
        rw [hbr, hh] at hpb
        exact hpb rfl
      cases hmp : s.mem pr with
      | none =>
        cases hmb : s.mem br with
        | none => simp [hmb, hmp, mem_write_self, mem_write_ne, hbx, hby, hbp]
        | some bn => simp [hmb, hmp, mem_write_self, mem_write_ne, hbx, hby, hbp]
      | some pn =>
        cases hpl : pn.left == some xr <;>
          cases hmb : s.mem br with
          | none => simp [hmb, hmp, hpl, mem_write_self, mem_write_ne, hbx, hby, hbp]
          | some bn => simp [hmb, hmp, hpl, mem_write_self, mem_write_ne, hbx, hby, hbp]
  · intro pr pn hpp hmp
    obtain ⟨hpx, hpy, hpb⟩ := hp pr hpp
    have hpb' : ∀ br, yn.left = some br → pr ≠ br := by
      intro br hbr hh
      rw [hbr, hh] at hpb
      exact hpb rfl
    unfold rlStore
    cases hbl : yn.left with
    | none =>
      cases hpl : pn.left == some xr <;>
        simp [hpp, hmp, hpl, mem_write_self, mem_write_ne, hpx, hpy]
    | some br =>
      have hpbr := hpb' br hbl
      cases hmb : s.mem br with
      | none =>
        cases hpl : pn.left == some xr <;>
          simp [hpp, hmp, hmb, hpl, mem_write_self, mem_write_ne, hpx, hpy, hpbr]
      | some bn =>
        cases hpl : pn.left == some xr <;>
          simp [hpp, hmp, hmb, hpl, mem_write_self, mem_write_ne, hpx, hpy, hpbr]
  · intro q hqx hqy hqb hqp
    unfold rlStore
    cases hbl : yn.left with
    | none =>
      cases hpp : xn.parent with
      | none => simp [mem_write_ne, hqx, hqy]
      | some pr =>
        have hqpr : q ≠ pr := by
          intro hh
          rw [hpp, hh] at hqp
          exact hqp rfl
        cases hmp : s.mem pr with
        | none => simp [hmp, mem_write_ne, hqx, hqy]
        | some pn =>
          cases hpl : pn.left == some xr <;>
            simp [hmp, hpl, mem_write_ne, hqx, hqy, hqpr]
    | some br =>
      have hqbr : q ≠ br := by
        intro hh
        rw [hbl, hh] at hqb
        exact hqb rfl
      cases hpp : xn.parent with
      | none =>
        cases hmb : s.mem br with
        | none => simp [hmb, mem_write_ne, hqx, hqy]
        | some bn => simp [hmb, mem_write_ne, hqx, hqy, hqbr]
      | some pr =>
        have hqpr : q ≠ pr := by
          intro hh
          rw [hpp, hh] at hqp
          exact hqp rfl
        cases hmp : s.mem pr with
        | none =>
          cases hmb : s.mem br with
          | none => simp [hmb, hmp, mem_write_ne, hqx, hqy]
          | some bn => simp [hmb, hmp, mem_write_ne, hqx, hqy, hqbr]
        | some pn =>
          cases hpl : pn.left == some xr <;>
            cases hmb : s.mem br with
            | none => simp [hmb, hmp, hpl, mem_write_ne, hqx, hqy, hqpr]
            | some bn => simp [hmb, hmp, hpl, mem_write_ne, hqx, hqy, hqbr, hqpr]
  · unfold rlStore
    cases hbl : yn.left with
    | none =>
      cases hpp : xn.parent with
      | none => simp [root_write]
      | some pr =>
        cases hmp : s.mem pr with
        | none => simp [hmp, root_write]
        | some pn =>
          cases hpl : pn.left == some xr <;> simp [hmp, hpl, root_write]
    | some br =>
      cases hmb : s.mem br with
      | none =>
        cases hpp : xn.parent with
        | none => simp [hmb, root_write]
        | some pr =>
          cases hmp : s.mem pr with
          | none => simp [hmb, hmp, root_write]
          | some pn =>
            cases hpl : pn.left == some xr <;> simp [hmb, hmp, hpl, root_write]
      | some bn =>
        cases hpp : xn.parent with
        | none => simp [hmb, root_write]
        | some pr =>
          cases hmp : s.mem pr with
          | none => simp [hmb, hmp, root_write]
          | some pn =>
            cases hpl : pn.left == some xr <;> simp [hmb, hmp, hpl, root_write]

end RBT

namespace RBT

/-- Pointwise description of the store `rrStore` produces (mirror of
`rlStore_mem`). -/
theorem rrStore_mem (s : Store) (yr xr : Ref) (yn xn : Node)
    (hyx : yr ≠ xr)
    (hb : ∀ br, xn.right = some br → br ≠ yr ∧ br ≠ xr)
    (hp : ∀ pr, yn.parent = some pr → pr ≠ yr ∧ pr ≠ xr ∧ xn.right ≠ some pr) :
    (rrStore s yr xr yn xn).mem yr =
        some { yn with left := xn.right, parent := some xr } ∧
    (rrStore s yr xr yn xn).mem xr =
        some { xn with parent := yn.parent, right := some yr } ∧
    (∀ br, xn.right = some br →
       (rrStore s yr xr yn xn).mem br =
         (s.mem br).map fun bn => { bn with parent := some yr }) ∧
    (∀ pr pn, yn.parent = some pr → s.mem pr = some pn →
       (rrStore s yr xr yn xn).mem pr =
         some (if pn.left == some yr then { pn with left := some xr }
               else { pn with right := some xr })) ∧
    (∀ q, q ≠ yr → q ≠ xr → xn.right ≠ some q → yn.parent ≠ some q →
       (rrStore s yr xr yn xn).mem q = s.mem q) ∧
    (rrStore s yr xr yn xn).root_ =
        (match yn.parent with
         | none => some xr
         | some _ => s.root_) := by
  have hxy : xr ≠ yr := Ne.symm hyx
  refine ⟨?_, ?_, ?_, ?_, ?_, ?_⟩
  · simp [rrStore, mem_write_self]
  · simp [rrStore, mem_write_self, mem_write_ne, hxy]
  · intro br hbr
    obtain ⟨hby, hbx⟩ := hb br hbr
    unfold rrStore
    rw [hbr]
    cases hpp : yn.parent with
    | none =>
      cases hmb : s.mem br with
      | none => simp [hmb, mem_write_self, mem_write_ne, hby, hbx]
      | some bn => simp [hmb, mem_write_self, mem_write_ne, hby, hbx]
    | some pr =>
      obtain ⟨hpy, hpx, hpb⟩ := hp pr hpp
      have hbp : br ≠ pr := by
        intro hh
        rw [hbr, hh] at hpb
        exact hpb rfl
      cases hmp : s.mem pr with
      | none =>
        cases hmb : s.mem br with
        | none => simp [hmb, hmp, mem_write_self, mem_write_ne, hby, hbx, hbp]
        | some bn => simp [hmb, hmp, mem_write_self, mem_write_ne, hby, hbx, hbp]
      | some pn =>
        cases hpl : pn.left == some yr <;>
          cases hmb : s.mem br with
          | none => simp [hmb, hmp, hpl, mem_write_self, mem_write_ne, hby, hbx, hbp]
          | some bn => simp [hmb, hmp, hpl, mem_write_self, mem_write_ne, hby, hbx, hbp]
  · intro pr pn hpp hmp
    obtain ⟨hpy, hpx, hpb⟩ := hp pr hpp
    have hpb' : ∀ br, xn.right = some br → pr ≠ br := by
      intro br hbr hh
      rw [hbr, hh] at hpb
      exact hpb rfl
    unfold rrStore
    cases hbl : xn.right with
    | none =>
      cases hpl : pn.left == some yr <;>
        simp [hpp, hmp, hpl, mem_write_self, mem_write_ne, hpy, hpx]
    | some br =>
      have hpbr := hpb' br hbl
      cases hmb : s.mem br with
      | none =>
        cases hpl : pn.left == some yr <;>
          simp [hpp, hmp, hmb, hpl, mem_write_self, mem_write_ne, hpy, hpx, hpbr]
      | some bn =>
        cases hpl : pn.left == some yr <;>
          simp [hpp, hmp, hmb, hpl, mem_write_self, mem_write_ne, hpy, hpx, hpbr]
  · intro q hqy hqx hqb hqp
    unfold rrStore
    cases hbl : xn.right with
    | none =>
      cases hpp : yn.parent with
      | none => simp [mem_write_ne, hqy, hqx]
      | some pr =>
        have hqpr : q ≠ pr := by
          intro hh
          rw [hpp, hh] at hqp
          exact hqp rfl
        cases hmp : s.mem pr with
        | none => simp [hmp, mem_write_ne, hqy, hqx]
        | some pn =>
          cases hpl : pn.left == some yr <;>
            simp [hmp, hpl, mem_write_ne, hqy, hqx, hqpr]
    | some br =>
      have hqbr : q ≠ br := by
        intro hh
        rw [hbl, hh] at hqb
        exact hqb rfl
      cases hpp : yn.parent with
      | none =>
        cases hmb : s.mem br with
        | none => simp [hmb, mem_write_ne, hqy, hqx]
        | some bn => simp [hmb, mem_write_ne, hqy, hqx, hqbr]
      | some pr =>
        have hqpr : q ≠ pr := by
          intro hh
          rw [hpp, hh] at hqp
          exact hqp rfl
        cases hmp : s.mem pr with
        | none =>
          cases hmb : s.mem br with
          | none => simp [hmb, hmp, mem_write_ne, hqy, hqx]
          | some bn => simp [hmb, hmp, mem_write_ne, hqy, hqx, hqbr]
        | some pn =>
          cases hpl : pn.left == some yr <;>
            cases hmb : s.mem br with
            | none => simp [hmb, hmp, hpl, mem_write_ne, hqy, hqx, hqpr]
            | some bn => simp [hmb, hmp, hpl, mem_write_ne, hqy, hqx, hqbr, hqpr]
  · unfold rrStore
    cases hbl : xn.right with
    | none =>
      cases hpp : yn.parent with
      | none => simp [root_write]
      | some pr =>
        cases hmp : s.mem pr with
        | none => simp [hmp, root_write]
        | some pn =>
          cases hpl : pn.left == some yr <;> simp [hmp, hpl, root_write]
    | some br =>
      cases hmb : s.mem br with
      | none =>
        cases hpp : yn.parent with
        | none => simp [hmb, root_write]
        | some pr =>
          cases hmp : s.mem pr with
          | none => simp [hmb, hmp, root_write]
          | some pn =>
            cases hpl : pn.left == some yr <;> simp [hmb, hmp, hpl, root_write]
      | some bn =>
        cases hpp : yn.parent with
        | none => simp [hmb, root_write]
        | some pr =>
          cases hmp : s.mem pr with
          | none => simp [hmb, hmp, root_write]
          | some pn =>
            cases hpl : pn.left == some yr <;> simp [hmb, hmp, hpl, root_write]

end RBT

namespace RBT

/-- Replacing a subtree at a non-empty path keeps the root address. -/
theorem rootRef_replaceH (T : HTree) (d : TreeNav.Dir) (p : List TreeNav.Dir)
    (u : HTree) : (replaceH T (d :: p) u).rootRef = T.rootRef := by
  cases T <;> cases d <;> rfl

end RBT

namespace RBT

/-- After the writes of a left rotation at `x` — described pointwise by
the `hF` hypotheses, with `pOpt` `x`'s old parent pointer and `hPout`
placing that parent outside the rotated subtree — a tree encoded in the
old store with the rotated pair at path `p` is encoded in the new store
with the rotated subtree spliced in at `p`. -/
theorem encodes_rotL_update
    (s s' : Store) (xr yr : Ref) (kx vx : Nat) (cx : Color) (ky vy : Nat)
    (cy : Color) (A B C : HTree) (pOpt : Option Ref)
    (hsx : s.mem xr = some ⟨kx, vx, cx, pOpt, A.rootRef, some yr⟩)
    (hF1 : s'.mem xr = some ⟨kx, vx, cx, some yr, A.rootRef, B.rootRef⟩)
    (hF2 : s'.mem yr = some ⟨ky, vy, cy, pOpt, some xr, C.rootRef⟩)
    (hF3 : ∀ br, B.rootRef = some br →
       s'.mem br = (s.mem br).map fun bn => { bn with parent := some xr })
    (hF4 : ∀ pr pn, pOpt = some pr → s.mem pr = some pn →
       s'.mem pr = some (if pn.left == some xr then { pn with left := some yr }
                         else { pn with right := some yr }))
    (hF5 : ∀ q, q ≠ xr → q ≠ yr → B.rootRef ≠ some q → pOpt ≠ some q →
       s'.mem q = s.mem q)
    (hPout : ∀ pr, pOpt = some pr →
       pr ∉ (HTree.node xr kx vx cx A (HTree.node yr ky vy cy B C)).refs) :
    ∀ (p : List TreeNav.Dir) (T : HTree) (par : Option Ref),
      encodes s par T.rootRef T = true →
      T.refs.Nodup →
      subH T p = some (HTree.node xr kx vx cx A (HTree.node yr ky vy cy B C)) →
      encodes s' par
        (replaceH T p (HTree.node yr ky vy cy (HTree.node xr kx vx cx A B) C)).rootRef
        (replaceH T p (HTree.node yr ky vy cy (HTree.node xr kx vx cx A B) C)) =
        true := by
  intro p
  induction p with
  | nil =>
    intro T par henc hnodup hsub
    rw [subH] at hsub
    injection hsub with hsub
    subst hsub
    rw [replaceH]
    obtain ⟨-, nd, hmem, hk, hv, hc, hpar, hlA, hrY⟩ :=
      encodes_node_elim s par _ xr kx vx cx A (HTree.node yr ky vy cy B C) henc
    rw [hsx] at hmem
    injection hmem with hmem
    subst hmem
    have hpo : pOpt = par := hpar
    replace hlA : encodes s (some xr) A.rootRef A = true := hlA
    replace hrY : encodes s (some xr) (some yr) (HTree.node yr ky vy cy B C) = true := hrY
    obtain ⟨-, ynd, hymem, hyk, hyv, hyc, hypar, hlB, hrC⟩ :=
      encodes_node_elim s (some xr) (some yr) yr ky vy cy B C hrY
    have hyl := encodes_ptr_eq_rootRef s (some yr) ynd.left B hlB
    have hyrr := encodes_ptr_eq_rootRef s (some yr) ynd.right C hrC
    rw [hyl] at hlB
    rw [hyrr] at hrC
    obtain ⟨hxA, hxY, hnA, hnY, hdAY⟩ :=
      nodup_refs_node xr kx vx cx A (HTree.node yr ky vy cy B C) hnodup
    obtain ⟨hyB, hyC, hnB, hnC, hdBC⟩ := nodup_refs_node yr ky vy cy B C hnY
    have hyYmem : yr ∈ (HTree.node yr ky vy cy B C).refs := by simp [HTree.refs]
    have hmemY : ∀ r, r ∈ B.refs ∨ r ∈ C.refs →
        r ∈ (HTree.node yr ky vy cy B C).refs := by
      intro r hr
      rw [HTree.refs, List.mem_cons, List.mem_append]
      exact Or.inr hr
    have hmemT : ∀ r, r = xr ∨ r ∈ A.refs ∨ r ∈ (HTree.node yr ky vy cy B C).refs →
        r ∈ (HTree.node xr kx vx cx A (HTree.node yr ky vy cy B C)).refs := by
      intro r hr
      rw [HTree.refs, List.mem_cons, List.mem_append]
      exact hr
    have hxB : xr ∉ B.refs := fun h => hxY (hmemY xr (Or.inl h))
    have hxC : xr ∉ C.refs := fun h => hxY (hmemY xr (Or.inr h))
    have hframeA : ∀ r ∈ A.refs, s'.mem r = s.mem r := by
      intro r hr
      refine hF5 r (fun h => hxA (h ▸ hr)) (fun h => hdAY r hr (h ▸ hyYmem)) ?_ ?_
      · intro h
        exact hdAY r hr (hmemY r (Or.inl (rootRef_mem_refs B r h)))
      · intro h
        exact hPout r h (hmemT r (Or.inr (Or.inl hr)))
    have hframeC : ∀ r ∈ C.refs, s'.mem r = s.mem r := by
      intro r hr
      refine hF5 r (fun h => hxC (h ▸ hr)) (fun h => hyC (h ▸ hr)) ?_ ?_
      · intro h
        have hb := rootRef_mem_refs B r h
        exact hdBC r hb hr
      · intro h
        exact hPout r h (hmemT r (Or.inr (Or.inr (hmemY r (Or.inr hr)))))
    have hBnew : encodes s' (some xr) B.rootRef B = true := by
      cases B with
      | nil => rfl
      | node br kb vb cb Bl Br =>
        obtain ⟨-, bnd, hbmem, hbk, hbv, hbc, hbpar, hbl, hbr⟩ :=
          encodes_node_elim s (some yr) _ br kb vb cb Bl Br hlB
        obtain ⟨hbBl, hbBr, hnBl, hnBr, hdBlBr⟩ :=
          nodup_refs_node br kb vb cb Bl Br hnB
        have hmemB : ∀ r, r = br ∨ r ∈ Bl.refs ∨ r ∈ Br.refs →
            r ∈ (HTree.node br kb vb cb Bl Br).refs := by
          intro r hr
          rw [HTree.refs, List.mem_cons, List.mem_append]
          exact hr
        have hframeBl : ∀ r ∈ Bl.refs, s'.mem r = s.mem r := by
          intro r hr
          refine hF5 r (fun h => hxB (h ▸ hmemB r (Or.inr (Or.inl hr))))
            (fun h => hyB (h ▸ hmemB r (Or.inr (Or.inl hr)))) ?_ ?_
          · intro h
            injection h with h
            exact hbBl (h ▸ hr)
          · intro h
            exact hPout r h
              (hmemT r (Or.inr (Or.inr (hmemY r (Or.inl (hmemB r (Or.inr (Or.inl hr))))))))
        have hframeBr : ∀ r ∈ Br.refs, s'.mem r = s.mem r := by
          intro r hr
          refine hF5 r (fun h => hxB (h ▸ hmemB r (Or.inr (Or.inr hr))))
            (fun h => hyB (h ▸ hmemB r (Or.inr (Or.inr hr)))) ?_ ?_
          · intro h
            injection h with h
            exact hbBr (h ▸ hr)
          · intro h
            exact hPout r h
              (hmemT r (Or.inr (Or.inr (hmemY r (Or.inl (hmemB r (Or.inr (Or.inr hr))))))))
        have hb' : s'.mem br = some { bnd with parent := some xr } := by
          rw [hF3 br rfl, hbmem]
          rfl
        exact encodes_node_intro s' (some xr) br kb vb cb Bl Br
          { bnd with parent := some xr } hb' hbk hbv hbc rfl
          (encodes_frame s s' Bl (some br) bnd.left hbl hframeBl)
          (encodes_frame s s' Br (some br) bnd.right hbr hframeBr)
    refine encodes_node_intro s' par yr ky vy cy (HTree.node xr kx vx cx A B) C
      ⟨ky, vy, cy, pOpt, some xr, C.rootRef⟩ hF2 rfl rfl rfl hpo ?_ ?_
    · exact encodes_node_intro s' (some yr) xr kx vx cx A B
        ⟨kx, vx, cx, some yr, A.rootRef, B.rootRef⟩ hF1 rfl rfl rfl rfl
        (encodes_frame s s' A (some xr) A.rootRef hlA hframeA)
        hBnew
    · exact encodes_frame s s' C (some yr) C.rootRef hrC hframeC
  | cons d p ih =>
    intro T par henc hnodup hsub
    cases T with
    | nil => rw [subH] at hsub; exact Option.noConfusion hsub
    | node cr k v c l rt =>
      obtain ⟨-, nd, hmem, hk, hv, hc, hpar, hl, hr⟩ :=
        encodes_node_elim s par _ cr k v c l rt henc
      have hndl := encodes_ptr_eq_rootRef s (some cr) nd.left l hl
      have hndr := encodes_ptr_eq_rootRef s (some cr) nd.right rt hr
      rw [hndl] at hl
      rw [hndr] at hr
      obtain ⟨hcl, hcrt, hnl, hnrt, hdisj⟩ := nodup_refs_node cr k v c l rt hnodup
      cases d with
      | L =>
        rw [subH] at hsub
        rw [replaceH]
        obtain ⟨par', henc', hcase⟩ :=
          encodes_parent_of_sub s p l _ (some cr) hl hnl hsub
        obtain ⟨-, nd', hmem', -, -, -, hpar', -, -⟩ :=
          encodes_node_elim s par' _ xr kx vx cx A (HTree.node yr ky vy cy B C) henc'
        rw [hsx] at hmem'
        injection hmem' with hmem'
        subst hmem'
        have hpo : pOpt = par' := hpar'
        have hxrl : xr ∈ l.refs :=
          refs_subH_subset p l _ hsub xr (by simp [HTree.refs])
        have hyrl : yr ∈ l.refs :=
          refs_subH_subset p l _ hsub yr (by simp [HTree.refs, List.mem_append])
        have hBl : ∀ br, B.rootRef = some br → br ∈ l.refs := by
          intro br h
          refine refs_subH_subset p l _ hsub br ?_
          have hb := rootRef_mem_refs B br h
          simp only [HTree.refs, List.mem_cons, List.mem_append]
          exact Or.inr (Or.inr (Or.inr (Or.inl hb)))
        rcases hcase with ⟨hpnil, hpar''⟩ | ⟨hpne, pr, hprEq, hprl, hpru⟩
        · -- p = []: x is the root of l, so cr is x's parent
          have hpc : pOpt = some cr := by rw [hpo, hpar'']
          have hndlx : nd.left = some xr := by
            subst hpnil
            rw [subH] at hsub
            injection hsub with hsub
            rw [hndl, hsub]
            rfl
          have hcrmem : s'.mem cr = some { nd with left := some yr } := by
            rw [hF4 cr nd hpc hmem, hndlx]
            simp
          have hframert : ∀ r ∈ rt.refs, s'.mem r = s.mem r := by
            intro r hr2
            refine hF5 r (fun h => hdisj xr hxrl (by rw [← h]; exact hr2))
              (fun h => hdisj yr hyrl (by rw [← h]; exact hr2)) ?_ ?_
            · intro h
              exact hdisj r (hBl r h) hr2
            · intro h
              rw [hpc] at h
              injection h with h
              exact hcrt (h ▸ hr2)
          have hrep := ih l (some cr) hl hnl hsub
          refine encodes_node_intro s' par cr k v c
            (replaceH l p (HTree.node yr ky vy cy (HTree.node xr kx vx cx A B) C)) rt
            { nd with left := some yr } hcrmem hk hv hc hpar ?_ ?_
          · have hroot : (replaceH l p
                (HTree.node yr ky vy cy (HTree.node xr kx vx cx A B) C)).rootRef =
                some yr := by
              subst hpnil
              rw [replaceH]
              rfl
            show encodes s' (some cr) (some yr) _ = true
            rw [← hroot]
            exact hrep
          · show encodes s' (some cr) nd.right rt = true
            rw [hndr]
            exact encodes_frame s s' rt (some cr) rt.rootRef hr hframert
        · -- p ≠ []: x's parent pr lies inside l; cr is untouched
          have hpc : pOpt = some pr := by rw [hpo, hprEq]
          have hcrneq : cr ≠ pr := fun h => hcl (h ▸ hprl)
          have hcrmem : s'.mem cr = some nd := by
            rw [hF5 cr (fun h => hcl (by rw [h]; exact hxrl))
                  (fun h => hcl (by rw [h]; exact hyrl)) ?_ ?_]
            · exact hmem
            · intro h
              exact hcl (hBl cr h)
            · intro h
              rw [hpc] at h
              exact hcrneq (Option.some.inj h).symm
          have hframert : ∀ r ∈ rt.refs, s'.mem r = s.mem r := by
            intro r hr2
            refine hF5 r (fun h => hdisj xr hxrl (by rw [← h]; exact hr2))
              (fun h => hdisj yr hyrl (by rw [← h]; exact hr2)) ?_ ?_
            · intro h
              exact hdisj r (hBl r h) hr2
            · intro h
              rw [hpc] at h
              exact hdisj r ((Option.some.inj h) ▸ hprl) hr2
          have hrep := ih l (some cr) hl hnl hsub
          refine encodes_node_intro s' par cr k v c
            (replaceH l p (HTree.node yr ky vy cy (HTree.node xr kx vx cx A B) C)) rt
            nd hcrmem hk hv hc hpar ?_ ?_
          · show encodes s' (some cr) nd.left _ = true
            cases p with
            | nil => exact absurd rfl hpne
            | cons d2 p2 =>
              rw [hndl, ← rootRef_replaceH l d2 p2 _]
              exact hrep
          · show encodes s' (some cr) nd.right rt = true
            rw [hndr]
            exact encodes_frame s s' rt (some cr) rt.rootRef hr hframert
      | R =>
        rw [subH] at hsub
        rw [replaceH]
        obtain ⟨par', henc', hcase⟩ :=
          encodes_parent_of_sub s p rt _ (some cr) hr hnrt hsub
        obtain ⟨-, nd', hmem', -, -, -, hpar', -, -⟩ :=
          encodes_node_elim s par' _ xr kx vx cx A (HTree.node yr ky vy cy B C) henc'
        rw [hsx] at hmem'
        injection hmem' with hmem'
        subst hmem'
        have hpo : pOpt = par' := hpar'
        have hxrrt : xr ∈ rt.refs :=
          refs_subH_subset p rt _ hsub xr (by simp [HTree.refs])
        have hyrrt : yr ∈ rt.refs :=
          refs_subH_subset p rt _ hsub yr (by simp [HTree.refs, List.mem_append])
        have hBrt : ∀ br, B.rootRef = some br → br ∈ rt.refs := by
          intro br h
          refine refs_subH_subset p rt _ hsub br ?_
          have hb := rootRef_mem_refs B br h
          simp only [HTree.refs, List.mem_cons, List.mem_append]
          exact Or.inr (Or.inr (Or.inr (Or.inl hb)))
        rcases hcase with ⟨hpnil, hpar''⟩ | ⟨hpne, pr, hprEq, hprl, hpru⟩
        · -- p = []: x is the root of rt, so cr is x's parent via its right slot
          have hpc : pOpt = some cr := by rw [hpo, hpar'']
          have hndrx : nd.right = some xr := by
            subst hpnil
            rw [subH] at hsub
            injection hsub with hsub
            rw [hndr, hsub]
            rfl
          have hndlne : (nd.left == some xr) = false := by
            rw [hndl]
            cases hlr : l.rootRef with
            | none => rfl
            | some q =>
              have hql : q ∈ l.refs := rootRef_mem_refs l q hlr
              have : q ≠ xr := fun h => hdisj q hql (by rw [h]; exact hxrrt)
              simp [this]
          have hcrmem : s'.mem cr = some { nd with right := some yr } := by
            rw [hF4 cr nd hpc hmem, hndlne]
            simp
          have hframel : ∀ r ∈ l.refs, s'.mem r = s.mem r := by
            intro r hr2
            refine hF5 r (fun h => hdisj r hr2 (by rw [h]; exact hxrrt))
              (fun h => hdisj r hr2 (by rw [h]; exact hyrrt)) ?_ ?_
            · intro h
              exact hdisj r hr2 (hBrt r h)
            · intro h
              rw [hpc] at h
              exact hcl ((Option.some.inj h) ▸ hr2)
          have hrep := ih rt (some cr) hr hnrt hsub
          refine encodes_node_intro s' par cr k v c l
            (replaceH rt p (HTree.node yr ky vy cy (HTree.node xr kx vx cx A B) C))
            { nd with right := some yr } hcrmem hk hv hc hpar ?_ ?_
          · show encodes s' (some cr) nd.left l = true
            rw [hndl]
            exact encodes_frame s s' l (some cr) l.rootRef hl hframel
          · have hroot : (replaceH rt p
                (HTree.node yr ky vy cy (HTree.node xr kx vx cx A B) C)).rootRef =
                some yr := by
              subst hpnil
              rw [replaceH]
              rfl
            show encodes s' (some cr) (some yr) _ = true
            rw [← hroot]
            exact hrep
        · -- p ≠ []: x's parent pr lies inside rt; cr is untouched
          have hpc : pOpt = some pr := by rw [hpo, hprEq]
          have hcrneq : cr ≠ pr := fun h => hcrt (h ▸ hprl)
          have hcrmem : s'.mem cr = some nd := by
            rw [hF5 cr (fun h => hcrt (by rw [h]; exact hxrrt))
                  (fun h => hcrt (by rw [h]; exact hyrrt)) ?_ ?_]
            · exact hmem
            · intro h
              exact hcrt (hBrt cr h)
            · intro h
              rw [hpc] at h
              exact hcrneq (Option.some.inj h).symm
          have hframel : ∀ r ∈ l.refs, s'.mem r = s.mem r := by
            intro r hr2
            refine hF5 r (fun h => hdisj r hr2 (by rw [h]; exact hxrrt))
              (fun h => hdisj r hr2 (by rw [h]; exact hyrrt)) ?_ ?_
            · intro h
              exact hdisj r hr2 (hBrt r h)
            · intro h
              rw [hpc] at h
              exact hdisj r hr2 ((Option.some.inj h) ▸ hprl)
          have hrep := ih rt (some cr) hr hnrt hsub
          refine encodes_node_intro s' par cr k v c l
            (replaceH rt p (HTree.node yr ky vy cy (HTree.node xr kx vx cx A B) C))
            nd hcrmem hk hv hc hpar ?_ ?_
          · show encodes s' (some cr) nd.left l = true
            rw [hndl]
            exact encodes_frame s s' l (some cr) l.rootRef hl hframel
          · show encodes s' (some cr) nd.right _ = true
            cases p with
            | nil => exact absurd rfl hpne
            | cons d2 p2 =>
              rw [hndr, ← rootRef_replaceH rt d2 p2 _]
              exact hrep

end RBT


namespace RBT

/-- Replacing a subtree by one with the same in-order keys preserves
the tree's in-order keys. -/
theorem inorder_replaceH : ∀ (p : List TreeNav.Dir) (T u u' : HTree),
    subH T p = some u → u'.inorder = u.inorder →
    (replaceH T p u').inorder = T.inorder := by
  intro p
  induction p with
  | nil =>
    intro T u u' h he
    rw [subH] at h
    injection h with h
    rw [replaceH, he, h]
  | cons d p ih =>
    intro T u u' h he
    cases T with
    | nil => rw [subH] at h; exact Option.noConfusion h
    | node r k v c l rt =>
      cases d with
      | L =>
        rw [subH] at h
        rw [replaceH, HTree.inorder, HTree.inorder, ih l u u' h he]
      | R =>
        rw [subH] at h
        rw [replaceH, HTree.inorder, HTree.inorder, ih rt u u' h he]

/-- A left rotation reassociates the in-order concatenation without
changing it. -/
theorem inorder_rotL_sub (xr yr : Ref) (kx vx ky vy : Nat) (cx cy : Color)
    (A B C : HTree) :
    (HTree.node yr ky vy cy (HTree.node xr kx vx cx A B) C).inorder =
      (HTree.node xr kx vx cx A (HTree.node yr ky vy cy B C)).inorder := by
  simp [HTree.inorder]

/-- Specification of `rotate_left` on an encoded tree: with `x` at path
`p` holding a present right child `y`, the rotation succeeds, the new
store encodes the tree with `y` promoted over `x` at `p` (so all three
link directions — the reparented subtree `B`, the old parent's child
slot, and the promoted node's parent pointer — are updated correctly),
the in-order key sequence is unchanged, and the tree's root pointer
moves to `y` when `x` was the root. -/
theorem rotate_left_spec (s : Store) (T : HTree) (p : List TreeNav.Dir)
    (xr yr : Ref) (kx vx : Nat) (cx : Color) (ky vy : Nat) (cy : Color)
    (A B C : HTree)
    (henc : encodes s none s.root_ T = true)
    (hnodup : T.refs.Nodup)
    (hsub : subH T p = some (HTree.node xr kx vx cx A (HTree.node yr ky vy cy B C))) :
    ∃ s', rotate_left s xr = .ok s' ∧
      encodes s' none s'.root_
        (replaceH T p (HTree.node yr ky vy cy (HTree.node xr kx vx cx A B) C)) = true ∧
      (replaceH T p (HTree.node yr ky vy cy (HTree.node xr kx vx cx A B) C)).inorder =
        T.inorder ∧
      (p = [] → s'.root_ = some yr) := by
  have hroot := encodes_ptr_eq_rootRef s none s.root_ T henc
  rw [hroot] at henc
  obtain ⟨par', henc', hcase⟩ := encodes_parent_of_sub s p T _ none henc hnodup hsub
  obtain ⟨-, nd, hmem, hk, hv, hc, hpar, hlA, hrY⟩ :=
    encodes_node_elim s par' _ xr kx vx cx A (HTree.node yr ky vy cy B C) henc'
  have hndl := encodes_ptr_eq_rootRef s (some xr) nd.left A hlA
  have hndr := encodes_ptr_eq_rootRef s (some xr) nd.right _ hrY
  rw [hndl] at hlA
  rw [hndr] at hrY
  obtain ⟨-, ynd, hymem, hyk, hyv, hyc, hypar, hlB, hrC⟩ :=
    encodes_node_elim s (some xr) _ yr ky vy cy B C hrY
  have hyl := encodes_ptr_eq_rootRef s (some yr) ynd.left B hlB
  have hyr2 := encodes_ptr_eq_rootRef s (some yr) ynd.right C hrC
  rw [hyl] at hlB
  rw [hyr2] at hrC
  obtain ⟨k1, v1, c1, p1, l1, r1⟩ := nd
  replace hk : k1 = kx := hk
  replace hv : v1 = vx := hv
  replace hc : c1 = cx := hc
  replace hpar : p1 = par' := hpar
  replace hndl : l1 = A.rootRef := hndl
  replace hndr : r1 = (HTree.node yr ky vy cy B C).rootRef := hndr
  rw [hk, hv, hc, hpar, hndl, hndr] at hmem
  obtain ⟨k2, v2, c2, p2, l2, r2⟩ := ynd
  replace hyk : k2 = ky := hyk
  replace hyv : v2 = vy := hyv
  replace hyc : c2 = cy := hyc
  replace hypar : p2 = some xr := hypar
  replace hyl : l2 = B.rootRef := hyl
  replace hyr2 : r2 = C.rootRef := hyr2
  rw [hyk, hyv, hyc, hypar, hyl, hyr2] at hymem
  have hnsub := nodup_refs_subH p T _ hsub hnodup
  obtain ⟨hxA, hxY, hnA, hnY, hdAY⟩ :=
    nodup_refs_node xr kx vx cx A (HTree.node yr ky vy cy B C) hnsub
  obtain ⟨hyB, hyC, hnB, hnC, hdBC⟩ := nodup_refs_node yr ky vy cy B C hnY
  have hyYmem : yr ∈ (HTree.node yr ky vy cy B C).refs := by simp [HTree.refs]
  have hxy : xr ≠ yr := fun h => hxY (by rw [h]; exact hyYmem)
  have hmemSub : ∀ r, r = xr ∨ r ∈ A.refs ∨ r ∈ (HTree.node yr ky vy cy B C).refs →
      r ∈ (HTree.node xr kx vx cx A (HTree.node yr ky vy cy B C)).refs := by
    intro r hr
    rw [HTree.refs, List.mem_cons, List.mem_append]
    exact hr
  have hmemY : ∀ r, r ∈ B.refs ∨ r ∈ C.refs →
      r ∈ (HTree.node yr ky vy cy B C).refs := by
    intro r hr
    rw [HTree.refs, List.mem_cons, List.mem_append]
    exact Or.inr hr
  have hb : ∀ br, B.rootRef = some br → br ≠ xr ∧ br ≠ yr ∧ ∃ bn, s.mem br = some bn := by
    intro br h
    have hbB : br ∈ B.refs := rootRef_mem_refs B br h
    refine ⟨fun hh => hxY (by rw [← hh]; exact hmemY br (Or.inl hbB)),
            fun hh => hyB (by rw [← hh]; exact hbB), ?_⟩
    exact encodes_mem_of_ref s B (some yr) B.rootRef hlB br hbB
  have hpout : ∀ pr, par' = some pr →
      pr ∉ (HTree.node xr kx vx cx A (HTree.node yr ky vy cy B C)).refs := by
    intro pr h
    rcases hcase with ⟨-, hnone⟩ | ⟨-, pr0, hpr0, -, hout⟩
    · rw [hnone] at h; exact Option.noConfusion h
    · rw [hpr0] at h
      injection h with h
      rw [← h]
      exact hout
  have hp : ∀ pr, (⟨kx, vx, cx, par', A.rootRef,
        (HTree.node yr ky vy cy B C).rootRef⟩ : Node).parent = some pr →
      pr ≠ xr ∧ pr ≠ yr ∧
        (⟨ky, vy, cy, some xr, B.rootRef, C.rootRef⟩ : Node).left ≠ some pr ∧
        ∃ pn, s.mem pr = some pn := by
    intro pr h
    replace h : par' = some pr := h
    have hout := hpout pr h
    refine ⟨fun hh => hout (by rw [hh]; exact hmemSub xr (Or.inl rfl)),
            fun hh => hout (by rw [hh]; exact hmemSub yr (Or.inr (Or.inr hyYmem))), ?_, ?_⟩
    · intro hh
      replace hh : B.rootRef = some pr := hh
      exact hout (hmemSub pr (Or.inr (Or.inr (hmemY pr (Or.inl (rootRef_mem_refs B pr hh))))))
    · rcases hcase with ⟨-, hnone⟩ | ⟨-, pr0, hpr0, hin, -⟩
      · rw [hnone] at h; exact Option.noConfusion h
      · rw [hpr0] at h
        injection h with h
        refine encodes_mem_of_ref s T none T.rootRef henc pr ?_
        rw [← h]
        exact hin
  have hexec := rotate_left_eq s xr yr
      ⟨kx, vx, cx, par', A.rootRef, (HTree.node yr ky vy cy B C).rootRef⟩
      ⟨ky, vy, cy, some xr, B.rootRef, C.rootRef⟩
      hmem rfl hymem hxy (fun br hbr => hb br hbr) hp
  obtain ⟨hG1, hG2, hG3, hG4, hG5, hGroot⟩ := rlStore_mem s xr yr
      ⟨kx, vx, cx, par', A.rootRef, (HTree.node yr ky vy cy B C).rootRef⟩
      ⟨ky, vy, cy, some xr, B.rootRef, C.rootRef⟩
      hxy (fun br hbr => ⟨(hb br hbr).1, (hb br hbr).2.1⟩)
      (fun pr hpr => ⟨(hp pr hpr).1, (hp pr hpr).2.1, (hp pr hpr).2.2.1⟩)
  refine ⟨_, hexec, ?_, inorder_replaceH p T _ _ hsub (inorder_rotL_sub xr yr kx vx ky vy cx cy A B C), ?_⟩
  · have hupd := encodes_rotL_update s
      (rlStore s xr yr ⟨kx, vx, cx, par', A.rootRef, (HTree.node yr ky vy cy B C).rootRef⟩
        ⟨ky, vy, cy, some xr, B.rootRef, C.rootRef⟩)
      xr yr kx vx cx ky vy cy A B C par' hmem hG1 hG2 hG3 hG4 hG5 hpout p T none henc hnodup hsub
    have hroot' : (rlStore s xr yr
        ⟨kx, vx, cx, par', A.rootRef, (HTree.node yr ky vy cy B C).rootRef⟩
        ⟨ky, vy, cy, some xr, B.rootRef, C.rootRef⟩).root_ =
        (replaceH T p (HTree.node yr ky vy cy (HTree.node xr kx vx cx A B) C)).rootRef := by
      rw [hGroot]
      rcases hcase with ⟨hpnil, hnone⟩ | ⟨hpne, pr0, hpr0, -, -⟩
      · subst hpnil
        rw [hnone, replaceH]
        rfl
      · rw [hpr0]
        cases p with
        | nil => exact absurd rfl hpne
        | cons d2 p2 =>
          rw [rootRef_replaceH T d2 p2 _, ← hroot]
    rw [hroot']
    exact hupd
  · intro hpnil
    subst hpnil
    rcases hcase with ⟨-, hnone⟩ | ⟨hpne, -⟩
    · rw [hGroot, hnone]
    · exact absurd rfl hpne

end RBT

namespace RBT

/-- Mirror of `encodes_rotL_update` for a right rotation at `y` with
left child `x`. -/
theorem encodes_rotR_update
    (s s' : Store) (yr xr : Ref) (ky vy : Nat) (cy : Color) (kx vx : Nat)
    (cx : Color) (A B C : HTree) (pOpt : Option Ref)
    (hsy : s.mem yr = some ⟨ky, vy, cy, pOpt, some xr, C.rootRef⟩)
    (hF1 : s'.mem yr = some ⟨ky, vy, cy, some xr, B.rootRef, C.rootRef⟩)
    (hF2 : s'.mem xr = some ⟨kx, vx, cx, pOpt, A.rootRef, some yr⟩)
    (hF3 : ∀ br, B.rootRef = some br →
       s'.mem br = (s.mem br).map fun bn => { bn with parent := some yr })
    (hF4 : ∀ pr pn, pOpt = some pr → s.mem pr = some pn →
       s'.mem pr = some (if pn.left == some yr then { pn with left := some xr }
                         else { pn with right := some xr }))
    (hF5 : ∀ q, q ≠ yr → q ≠ xr → B.rootRef ≠ some q → pOpt ≠ some q →
       s'.mem q = s.mem q)
    (hPout : ∀ pr, pOpt = some pr →
       pr ∉ (HTree.node yr ky vy cy (HTree.node xr kx vx cx A B) C).refs) :
    ∀ (p : List TreeNav.Dir) (T : HTree) (par : Option Ref),
      encodes s par T.rootRef T = true →
      T.refs.Nodup →
      subH T p = some (HTree.node yr ky vy cy (HTree.node xr kx vx cx A B) C) →
      encodes s' par
        (replaceH T p (HTree.node xr kx vx cx A (HTree.node yr ky vy cy B C))).rootRef
        (replaceH T p (HTree.node xr kx vx cx A (HTree.node yr ky vy cy B C))) =
        true := by
  intro p
  induction p with
  | nil =>
    intro T par henc hnodup hsub
    rw [subH] at hsub
    injection hsub with hsub
    subst hsub
    rw [replaceH]
    obtain ⟨-, nd, hmem, hk, hv, hc, hpar, hlX, hrC⟩ :=
      encodes_node_elim s par _ yr ky vy cy (HTree.node xr kx vx cx A B) C henc
    rw [hsy] at hmem
    injection hmem with hmem
    subst hmem
    have hpo : pOpt = par := hpar
    replace hlX : encodes s (some yr) (some xr) (HTree.node xr kx vx cx A B) = true := hlX
    replace hrC : encodes s (some yr) C.rootRef C = true := hrC
    obtain ⟨-, xnd, hxmem, hxk, hxv, hxc, hxpar, hlA, hrB⟩ :=
      encodes_node_elim s (some yr) (some xr) xr kx vx cx A B hlX
    have hxl := encodes_ptr_eq_rootRef s (some xr) xnd.left A hlA
    have hxr2 := encodes_ptr_eq_rootRef s (some xr) xnd.right B hrB
    rw [hxl] at hlA
    rw [hxr2] at hrB
    obtain ⟨hyX, hyC, hnX, hnC, hdXC⟩ :=
      nodup_refs_node yr ky vy cy (HTree.node xr kx vx cx A B) C hnodup
    obtain ⟨hxA, hxB, hnA, hnB, hdAB⟩ := nodup_refs_node xr kx vx cx A B hnX
    have hxXmem : xr ∈ (HTree.node xr kx vx cx A B).refs := by simp [HTree.refs]
    have hmemX : ∀ r, r ∈ A.refs ∨ r ∈ B.refs →
        r ∈ (HTree.node xr kx vx cx A B).refs := by
      intro r hr
      rw [HTree.refs, List.mem_cons, List.mem_append]
      exact Or.inr hr
    have hmemT : ∀ r, r = yr ∨ r ∈ (HTree.node xr kx vx cx A B).refs ∨ r ∈ C.refs →
        r ∈ (HTree.node yr ky vy cy (HTree.node xr kx vx cx A B) C).refs := by
      intro r hr
      rw [HTree.refs, List.mem_cons, List.mem_append]
      exact hr
    have hyA : yr ∉ A.refs := fun h => hyX (hmemX yr (Or.inl h))
    have hyB : yr ∉ B.refs := fun h => hyX (hmemX yr (Or.inr h))
    have hframeA : ∀ r ∈ A.refs, s'.mem r = s.mem r := by
      intro r hr
      refine hF5 r (fun h => hyA (h ▸ hr)) (fun h => hxA (h ▸ hr)) ?_ ?_
      · intro h
        exact hdAB r hr (rootRef_mem_refs B r h)
      · intro h
        exact hPout r h (hmemT r (Or.inr (Or.inl (hmemX r (Or.inl hr)))))
    have hframeC : ∀ r ∈ C.refs, s'.mem r = s.mem r := by
      intro r hr
      refine hF5 r (fun h => hyC (h ▸ hr)) ?_ ?_ ?_
      · intro h
        exact hdXC xr hxXmem (h ▸ hr)
      · intro h
        exact hdXC r (hmemX r (Or.inr (rootRef_mem_refs B r h))) hr
      · intro h
        exact hPout r h (hmemT r (Or.inr (Or.inr hr)))
    have hBnew : encodes s' (some yr) B.rootRef B = true := by
      cases B with
      | nil => rfl
      | node br kb vb cb Bl Br =>
        obtain ⟨-, bnd, hbmem, hbk, hbv, hbc, hbpar, hbl, hbr⟩ :=
          encodes_node_elim s (some xr) _ br kb vb cb Bl Br hrB
        obtain ⟨hbBl, hbBr, hnBl, hnBr, hdBlBr⟩ :=
          nodup_refs_node br kb vb cb Bl Br hnB
        have hmemB : ∀ r, r = br ∨ r ∈ Bl.refs ∨ r ∈ Br.refs →
            r ∈ (HTree.node br kb vb cb Bl Br).refs := by
          intro r hr
          rw [HTree.refs, List.mem_cons, List.mem_append]
          exact hr
        have hframeBl : ∀ r ∈ Bl.refs, s'.mem r = s.mem r := by
          intro r hr
          refine hF5 r (fun h => hyB (h ▸ hmemB r (Or.inr (Or.inl hr))))
            (fun h => hxB (h ▸ hmemB r (Or.inr (Or.inl hr)))) ?_ ?_
          · intro h
            injection h with h
            exact hbBl (h ▸ hr)
          · intro h
            exact hPout r h
              (hmemT r (Or.inr (Or.inl (hmemX r (Or.inr (hmemB r (Or.inr (Or.inl hr))))))))
        have hframeBr : ∀ r ∈ Br.refs, s'.mem r = s.mem r := by
          intro r hr
          refine hF5 r (fun h => hyB (h ▸ hmemB r (Or.inr (Or.inr hr))))
            (fun h => hxB (h ▸ hmemB r (Or.inr (Or.inr hr)))) ?_ ?_
          · intro h
            injection h with h
            exact hbBr (h ▸ hr)
          · intro h
            exact hPout r h
              (hmemT r (Or.inr (Or.inl (hmemX r (Or.inr (hmemB r (Or.inr (Or.inr hr))))))))
        have hb' : s'.mem br = some { bnd with parent := some yr } := by
          rw [hF3 br rfl, hbmem]
          rfl
        exact encodes_node_intro s' (some yr) br kb vb cb Bl Br
          { bnd with parent := some yr } hb' hbk hbv hbc rfl
          (encodes_frame s s' Bl (some br) bnd.left hbl hframeBl)
          (encodes_frame s s' Br (some br) bnd.right hbr hframeBr)
    refine encodes_node_intro s' par xr kx vx cx A (HTree.node yr ky vy cy B C)
      ⟨kx, vx, cx, pOpt, A.rootRef, some yr⟩ hF2 rfl rfl rfl hpo ?_ ?_
    · exact encodes_frame s s' A (some xr) A.rootRef hlA hframeA
    · exact encodes_node_intro s' (some xr) yr ky vy cy B C
        ⟨ky, vy, cy, some xr, B.rootRef, C.rootRef⟩ hF1 rfl rfl rfl rfl
        hBnew
        (encodes_frame s s' C (some yr) C.rootRef hrC hframeC)
  | cons d p ih =>
    intro T par henc hnodup hsub
    cases T with
    | nil => rw [subH] at hsub; exact Option.noConfusion hsub
    | node cr k v c l rt =>
      obtain ⟨-, nd, hmem, hk, hv, hc, hpar, hl, hr⟩ :=
        encodes_node_elim s par _ cr k v c l rt henc
      have hndl := encodes_ptr_eq_rootRef s (some cr) nd.left l hl
      have hndr := encodes_ptr_eq_rootRef s (some cr) nd.right rt hr
      rw [hndl] at hl
      rw [hndr] at hr
      obtain ⟨hcl, hcrt, hnl, hnrt, hdisj⟩ := nodup_refs_node cr k v c l rt hnodup
      cases d with
      | L =>
        rw [subH] at hsub
        rw [replaceH]
        obtain ⟨par', henc', hcase⟩ :=
          encodes_parent_of_sub s p l _ (some cr) hl hnl hsub
        obtain ⟨-, nd', hmem', -, -, -, hpar', -, -⟩ :=
          encodes_node_elim s par' _ yr ky vy cy (HTree.node xr kx vx cx A B) C henc'
        rw [hsy] at hmem'
        injection hmem' with hmem'
        subst hmem'
        have hpo : pOpt = par' := hpar'
        have hyrl : yr ∈ l.refs :=
          refs_subH_subset p l _ hsub yr (by simp [HTree.refs])
        have hxrl : xr ∈ l.refs := by
          refine refs_subH_subset p l _ hsub xr ?_
          simp [HTree.refs, List.mem_append]
        have hBl : ∀ br, B.rootRef = some br → br ∈ l.refs := by
          intro br h
          refine refs_subH_subset p l _ hsub br ?_
          have hb := rootRef_mem_refs B br h
          simp only [HTree.refs, List.mem_cons, List.mem_append]
          exact Or.inr (Or.inl (Or.inr (Or.inr hb)))
        rcases hcase with ⟨hpnil, hpar''⟩ | ⟨hpne, pr, hprEq, hprl, hpru⟩
        · have hpc : pOpt = some cr := by rw [hpo, hpar'']
          have hndly : nd.left = some yr := by
            subst hpnil
            rw [subH] at hsub
            injection hsub with hsub
            rw [hndl, hsub]
            rfl
          have hcrmem : s'.mem cr = some { nd with left := some xr } := by
            rw [hF4 cr nd hpc hmem, hndly]
            simp
          have hframert : ∀ r ∈ rt.refs, s'.mem r = s.mem r := by
            intro r hr2
            refine hF5 r (fun h => hdisj yr hyrl (by rw [← h]; exact hr2))
              (fun h => hdisj xr hxrl (by rw [← h]; exact hr2)) ?_ ?_
            · intro h
              exact hdisj r (hBl r h) hr2
            · intro h
              rw [hpc] at h
              injection h with h
              exact hcrt (h ▸ hr2)
          have hrep := ih l (some cr) hl hnl hsub
          refine encodes_node_intro s' par cr k v c
            (replaceH l p (HTree.node xr kx vx cx A (HTree.node yr ky vy cy B C))) rt
            { nd with left := some xr } hcrmem hk hv hc hpar ?_ ?_
          · have hroot : (replaceH l p
                (HTree.node xr kx vx cx A (HTree.node yr ky vy cy B C))).rootRef =
                some xr := by
              subst hpnil
              rw [replaceH]
              rfl
            show encodes s' (some cr) (some xr) _ = true
            rw [← hroot]
            exact hrep
          · show encodes s' (some cr) nd.right rt = true
            rw [hndr]
            exact encodes_frame s s' rt (some cr) rt.rootRef hr hframert
        · have hpc : pOpt = some pr := by rw [hpo, hprEq]
          have hcrneq : cr ≠ pr := fun h => hcl (h ▸ hprl)
          have hcrmem : s'.mem cr = some nd := by
            rw [hF5 cr (fun h => hcl (by rw [h]; exact hyrl))
                  (fun h => hcl (by rw [h]; exact hxrl)) ?_ ?_]
            · exact hmem
            · intro h
              exact hcl (hBl cr h)
            · intro h
              rw [hpc] at h
              exact hcrneq (Option.some.inj h).symm
          have hframert : ∀ r ∈ rt.refs, s'.mem r = s.mem r := by
            intro r hr2
            refine hF5 r (fun h => hdisj yr hyrl (by rw [← h]; exact hr2))
              (fun h => hdisj xr hxrl (by rw [← h]; exact hr2)) ?_ ?_
            · intro h
              exact hdisj r (hBl r h) hr2
            · intro h
              rw [hpc] at h
              exact hdisj r ((Option.some.inj h) ▸ hprl) hr2
          have hrep := ih l (some cr) hl hnl hsub
          refine encodes_node_intro s' par cr k v c
            (replaceH l p (HTree.node xr kx vx cx A (HTree.node yr ky vy cy B C))) rt
            nd hcrmem hk hv hc hpar ?_ ?_
          · show encodes s' (some cr) nd.left _ = true
            cases p with
            | nil => exact absurd rfl hpne
            | cons d2 p2 =>
              rw [hndl, ← rootRef_replaceH l d2 p2 _]
              exact hrep
          · show encodes s' (some cr) nd.right rt = true
            rw [hndr]
            exact encodes_frame s s' rt (some cr) rt.rootRef hr hframert
      | R =>
        rw [subH] at hsub
        rw [replaceH]
        obtain ⟨par', henc', hcase⟩ :=
          encodes_parent_of_sub s p rt _ (some cr) hr hnrt hsub
        obtain ⟨-, nd', hmem', -, -, -, hpar', -, -⟩ :=
          encodes_node_elim s par' _ yr ky vy cy (HTree.node xr kx vx cx A B) C henc'
        rw [hsy] at hmem'
        injection hmem' with hmem'
        subst hmem'
        have hpo : pOpt = par' := hpar'
        have hyrrt : yr ∈ rt.refs :=
          refs_subH_subset p rt _ hsub yr (by simp [HTree.refs])
        have hxrrt : xr ∈ rt.refs := by
          refine refs_subH_subset p rt _ hsub xr ?_
          simp [HTree.refs, List.mem_append]
        have hBrt : ∀ br, B.rootRef = some br → br ∈ rt.refs := by
          intro br h
          refine refs_subH_subset p rt _ hsub br ?_
          have hb := rootRef_mem_refs B br h
          simp only [HTree.refs, List.mem_cons, List.mem_append]
          exact Or.inr (Or.inl (Or.inr (Or.inr hb)))
        rcases hcase with ⟨hpnil, hpar''⟩ | ⟨hpne, pr, hprEq, hprl, hpru⟩
        · have hpc : pOpt = some cr := by rw [hpo, hpar'']
          have hndry : nd.right = some yr := by
            subst hpnil
            rw [subH] at hsub
            injection hsub with hsub
            rw [hndr, hsub]
            rfl
          have hndlne : (nd.left == some yr) = false := by
            rw [hndl]
            cases hlr : l.rootRef with
            | none => rfl
            | some q =>
              have hql : q ∈ l.refs := rootRef_mem_refs l q hlr
              have : q ≠ yr := fun h => hdisj q hql (by rw [h]; exact hyrrt)
              simp [this]
          have hcrmem : s'.mem cr = some { nd with right := some xr } := by
            rw [hF4 cr nd hpc hmem, hndlne]
            simp
          have hframel : ∀ r ∈ l.refs, s'.mem r = s.mem r := by
            intro r hr2
            refine hF5 r (fun h => hdisj r hr2 (by rw [h]; exact hyrrt))
              (fun h => hdisj r hr2 (by rw [h]; exact hxrrt)) ?_ ?_
            · intro h
              exact hdisj r hr2 (hBrt r h)
            · intro h
              rw [hpc] at h
              exact hcl ((Option.some.inj h) ▸ hr2)
          have hrep := ih rt (some cr) hr hnrt hsub
          refine encodes_node_intro s' par cr k v c l
            (replaceH rt p (HTree.node xr kx vx cx A (HTree.node yr ky vy cy B C)))
            { nd with right := some xr } hcrmem hk hv hc hpar ?_ ?_
          · show encodes s' (some cr) nd.left l = true
            rw [hndl]
            exact encodes_frame s s' l (some cr) l.rootRef hl hframel
          · have hroot : (replaceH rt p
                (HTree.node xr kx vx cx A (HTree.node yr ky vy cy B C))).rootRef =
                some xr := by
              subst hpnil
              rw [replaceH]
              rfl
            show encodes s' (some cr) (some xr) _ = true
            rw [← hroot]
            exact hrep
        · have hpc : pOpt = some pr := by rw [hpo, hprEq]
          have hcrneq : cr ≠ pr := fun h => hcrt (h ▸ hprl)
          have hcrmem : s'.mem cr = some nd := by
            rw [hF5 cr (fun h => hcrt (by rw [h]; exact hyrrt))
                  (fun h => hcrt (by rw [h]; exact hxrrt)) ?_ ?_]
            · exact hmem
            · intro h
              exact hcrt (hBrt cr h)
            · intro h
              rw [hpc] at h
              exact hcrneq (Option.some.inj h).symm
          have hframel : ∀ r ∈ l.refs, s'.mem r = s.mem r := by
            intro r hr2
            refine hF5 r (fun h => hdisj r hr2 (by rw [h]; exact hyrrt))
              (fun h => hdisj r hr2 (by rw [h]; exact hxrrt)) ?_ ?_
            · intro h
              exact hdisj r hr2 (hBrt r h)
            · intro h
              rw [hpc] at h
              exact hdisj r hr2 ((Option.some.inj h) ▸ hprl)
          have hrep := ih rt (some cr) hr hnrt hsub
          refine encodes_node_intro s' par cr k v c l
            (replaceH rt p (HTree.node xr kx vx cx A (HTree.node yr ky vy cy B C)))
            nd hcrmem hk hv hc hpar ?_ ?_
          · show encodes s' (some cr) nd.left l = true
            rw [hndl]
            exact encodes_frame s s' l (some cr) l.rootRef hl hframel
          · show encodes s' (some cr) nd.right _ = true
            cases p with
            | nil => exact absurd rfl hpne
            | cons d2 p2 =>
              rw [hndr, ← rootRef_replaceH rt d2 p2 _]
              exact hrep

end RBT


namespace RBT

/-- A right rotation reassociates the in-order concatenation without
changing it. -/
theorem inorder_rotR_sub (yr xr : Ref) (ky vy kx vx : Nat) (cy cx : Color)
    (A B C : HTree) :
    (HTree.node xr kx vx cx A (HTree.node yr ky vy cy B C)).inorder =
      (HTree.node yr ky vy cy (HTree.node xr kx vx cx A B) C).inorder := by
  simp [HTree.inorder]

/-- Specification of `rotate_right` on an encoded tree, mirror of
`rotate_left_spec`: with `y` at path `p` holding a present left child
`x`, the rotation succeeds, the new store encodes the tree with `x`
promoted over `y` at `p`, the in-order key sequence is unchanged, and
the root pointer moves to `x` when `y` was the root. -/
theorem rotate_right_spec (s : Store) (T : HTree) (p : List TreeNav.Dir)
    (yr xr : Ref) (ky vy : Nat) (cy : Color) (kx vx : Nat) (cx : Color)
    (A B C : HTree)
    (henc : encodes s none s.root_ T = true)
    (hnodup : T.refs.Nodup)
    (hsub : subH T p = some (HTree.node yr ky vy cy (HTree.node xr kx vx cx A B) C)) :
    ∃ s', rotate_right s yr = .ok s' ∧
      encodes s' none s'.root_
        (replaceH T p (HTree.node xr kx vx cx A (HTree.node yr ky vy cy B C))) = true ∧
      (replaceH T p (HTree.node xr kx vx cx A (HTree.node yr ky vy cy B C))).inorder =
        T.inorder ∧
      (p = [] → s'.root_ = some xr) := by
  have hroot := encodes_ptr_eq_rootRef s none s.root_ T henc
  rw [hroot] at henc
  obtain ⟨par', henc', hcase⟩ := encodes_parent_of_sub s p T _ none henc hnodup hsub
  obtain ⟨-, nd, hmem, hk, hv, hc, hpar, hlX, hrC⟩ :=
    encodes_node_elim s par' _ yr ky vy cy (HTree.node xr kx vx cx A B) C henc'
  have hndl := encodes_ptr_eq_rootRef s (some yr) nd.left _ hlX
  have hndr := encodes_ptr_eq_rootRef s (some yr) nd.right C hrC
  rw [hndl] at hlX
  rw [hndr] at hrC
  obtain ⟨-, xnd, hxmem, hxk, hxv, hxc, hxpar, hlA, hrB⟩ :=
    encodes_node_elim s (some yr) _ xr kx vx cx A B hlX
  have hxl := encodes_ptr_eq_rootRef s (some xr) xnd.left A hlA
  have hxr2 := encodes_ptr_eq_rootRef s (some xr) xnd.right B hrB
  rw [hxl] at hlA
  rw [hxr2] at hrB
  obtain ⟨k1, v1, c1, p1, l1, r1⟩ := nd
  replace hk : k1 = ky := hk
  replace hv : v1 = vy := hv
  replace hc : c1 = cy := hc
  replace hpar : p1 = par' := hpar
  replace hndl : l1 = (HTree.node xr kx vx cx A B).rootRef := hndl
  replace hndr : r1 = C.rootRef := hndr
  rw [hk, hv, hc, hpar, hndl, hndr] at hmem
  obtain ⟨k2, v2, c2, p2, l2, r2⟩ := xnd
  replace hxk : k2 = kx := hxk
  replace hxv : v2 = vx := hxv
  replace hxc : c2 = cx := hxc
  replace hxpar : p2 = some yr := hxpar
  replace hxl : l2 = A.rootRef := hxl
  replace hxr2 : r2 = B.rootRef := hxr2
  rw [hxk, hxv, hxc, hxpar, hxl, hxr2] at hxmem
  have hnsub := nodup_refs_subH p T _ hsub hnodup
  obtain ⟨hyX, hyC, hnX, hnC, hdXC⟩ :=
    nodup_refs_node yr ky vy cy (HTree.node xr kx vx cx A B) C hnsub
  obtain ⟨hxA, hxB, hnA, hnB, hdAB⟩ := nodup_refs_node xr kx vx cx A B hnX
  have hxXmem : xr ∈ (HTree.node xr kx vx cx A B).refs := by simp [HTree.refs]
  have hyx : yr ≠ xr := fun h => hyX (by rw [h]; exact hxXmem)
  have hmemSub : ∀ r, r = yr ∨ r ∈ (HTree.node xr kx vx cx A B).refs ∨ r ∈ C.refs →
      r ∈ (HTree.node yr ky vy cy (HTree.node xr kx vx cx A B) C).refs := by
    intro r hr
    rw [HTree.refs, List.mem_cons, List.mem_append]
    exact hr
  have hmemX : ∀ r, r ∈ A.refs ∨ r ∈ B.refs →
      r ∈ (HTree.node xr kx vx cx A B).refs := by
    intro r hr
    rw [HTree.refs, List.mem_cons, List.mem_append]
    exact Or.inr hr
  have hb : ∀ br, B.rootRef = some br → br ≠ yr ∧ br ≠ xr ∧ ∃ bn, s.mem br = some bn := by
    intro br h
    have hbB : br ∈ B.refs := rootRef_mem_refs B br h
    refine ⟨fun hh => hyX (by rw [← hh]; exact hmemX br (Or.inr hbB)),
            fun hh => hxB (by rw [← hh]; exact hbB), ?_⟩
    exact encodes_mem_of_ref s B (some xr) B.rootRef hrB br hbB
  have hpout : ∀ pr, par' = some pr →
      pr ∉ (HTree.node yr ky vy cy (HTree.node xr kx vx cx A B) C).refs := by
    intro pr h
    rcases hcase with ⟨-, hnone⟩ | ⟨-, pr0, hpr0, -, hout⟩
    · rw [hnone] at h; exact Option.noConfusion h
    · rw [hpr0] at h
      injection h with h
      rw [← h]
      exact hout
  have hp : ∀ pr, (⟨ky, vy, cy, par', (HTree.node xr kx vx cx A B).rootRef,
        C.rootRef⟩ : Node).parent = some pr →
      pr ≠ yr ∧ pr ≠ xr ∧
        (⟨kx, vx, cx, some yr, A.rootRef, B.rootRef⟩ : Node).right ≠ some pr ∧
        ∃ pn, s.mem pr = some pn := by
    intro pr h
    replace h : par' = some pr := h
    have hout := hpout pr h
    refine ⟨fun hh => hout (by rw [hh]; exact hmemSub yr (Or.inl rfl)),
            fun hh => hout (by rw [hh]; exact hmemSub xr (Or.inr (Or.inl hxXmem))), ?_, ?_⟩
    · intro hh
      replace hh : B.rootRef = some pr := hh
      exact hout (hmemSub pr (Or.inr (Or.inl (hmemX pr (Or.inr (rootRef_mem_refs B pr hh))))))
    · rcases hcase with ⟨-, hnone⟩ | ⟨-, pr0, hpr0, hin, -⟩
      · rw [hnone] at h; exact Option.noConfusion h
      · rw [hpr0] at h
        injection h with h
        refine encodes_mem_of_ref s T none T.rootRef henc pr ?_
        rw [← h]
        exact hin
  have hexec := rotate_right_eq s yr xr
      ⟨ky, vy, cy, par', (HTree.node xr kx vx cx A B).rootRef, C.rootRef⟩
      ⟨kx, vx, cx, some yr, A.rootRef, B.rootRef⟩
      hmem rfl hxmem hyx (fun br hbr => hb br hbr) hp
  obtain ⟨hG1, hG2, hG3, hG4, hG5, hGroot⟩ := rrStore_mem s yr xr
      ⟨ky, vy, cy, par', (HTree.node xr kx vx cx A B).rootRef, C.rootRef⟩
      ⟨kx, vx, cx, some yr, A.rootRef, B.rootRef⟩
      hyx (fun br hbr => ⟨(hb br hbr).1, (hb br hbr).2.1⟩)
      (fun pr hpr => ⟨(hp pr hpr).1, (hp pr hpr).2.1, (hp pr hpr).2.2.1⟩)
  refine ⟨_, hexec, ?_,
    inorder_replaceH p T _ _ hsub (inorder_rotR_sub yr xr ky vy kx vx cy cx A B C), ?_⟩
  · have hupd := encodes_rotR_update s
      (rrStore s yr xr
        ⟨ky, vy, cy, par', (HTree.node xr kx vx cx A B).rootRef, C.rootRef⟩
        ⟨kx, vx, cx, some yr, A.rootRef, B.rootRef⟩)
      yr xr ky vy cy kx vx cx A B C par' hmem hG1 hG2 hG3 hG4 hG5 hpout p T none henc hnodup hsub
    have hroot' : (rrStore s yr xr
        ⟨ky, vy, cy, par', (HTree.node xr kx vx cx A B).rootRef, C.rootRef⟩
        ⟨kx, vx, cx, some yr, A.rootRef, B.rootRef⟩).root_ =
        (replaceH T p (HTree.node xr kx vx cx A (HTree.node yr ky vy cy B C))).rootRef := by
      rw [hGroot]
      rcases hcase with ⟨hpnil, hnone⟩ | ⟨hpne, pr0, hpr0, -, -⟩
      · subst hpnil
        rw [hnone, replaceH]
        rfl
      · rw [hpr0]
        cases p with
        | nil => exact absurd rfl hpne
        | cons d2 p2 =>
          rw [rootRef_replaceH T d2 p2 _, ← hroot]
    rw [hroot']
    exact hupd
  · intro hpnil
    subst hpnil
    rcases hcase with ⟨-, hnone⟩ | ⟨hpne, -⟩
    · rw [hGroot, hnone]
    · exact absurd rfl hpne

end RBT

/-- Claim C8: on every well-formed tree (a store encoding a shadow tree
with distinct node addresses), `rotate_left` at a node `x` with a
present right child `y` succeeds, re-encodes the tree with `y` promoted
over `x` — `encodes` checks every link direction, so the reparented
middle subtree's parent pointer, the old parent's child slot, and the
promoted node's parent pointer are all updated — leaves the in-order
key sequence of the whole tree unchanged, and sets the tree's root
pointer to `y` when `x` had no parent; and the mirror holds for
`rotate_right` at a node with a present left child. -/
theorem C8_rotations :
    (∀ (s : RBT.Store) (T : RBT.HTree) (p : List TreeNav.Dir) (xr yr : RBT.Ref)
       (kx vx : Nat) (cx : RBT.Color) (ky vy : Nat) (cy : RBT.Color)
       (A B C : RBT.HTree),
       RBT.encodes s none s.root_ T = true →
       T.refs.Nodup →
       RBT.subH T p =
         some (RBT.HTree.node xr kx vx cx A (RBT.HTree.node yr ky vy cy B C)) →
       ∃ s', RBT.rotate_left s xr = .ok s' ∧
         RBT.encodes s' none s'.root_
           (RBT.replaceH T p
             (RBT.HTree.node yr ky vy cy (RBT.HTree.node xr kx vx cx A B) C)) = true ∧
         (RBT.replaceH T p
           (RBT.HTree.node yr ky vy cy (RBT.HTree.node xr kx vx cx A B) C)).inorder =
           T.inorder ∧
         (p = [] → s'.root_ = some yr)) ∧
    (∀ (s : RBT.Store) (T : RBT.HTree) (p : List TreeNav.Dir) (yr xr : RBT.Ref)
       (ky vy : Nat) (cy : RBT.Color) (kx vx : Nat) (cx : RBT.Color)
       (A B C : RBT.HTree),
       RBT.encodes s none s.root_ T = true →
       T.refs.Nodup →
       RBT.subH T p =
         some (RBT.HTree.node yr ky vy cy (RBT.HTree.node xr kx vx cx A B) C) →
       ∃ s', RBT.rotate_right s yr = .ok s' ∧
         RBT.encodes s' none s'.root_
           (RBT.replaceH T p
             (RBT.HTree.node xr kx vx cx A (RBT.HTree.node yr ky vy cy B C))) = true ∧
         (RBT.replaceH T p
           (RBT.HTree.node xr kx vx cx A (RBT.HTree.node yr ky vy cy B C))).inorder =
           T.inorder ∧
         (p = [] → s'.root_ = some xr)) :=
  ⟨fun s T p xr yr kx vx cx ky vy cy A B C henc hnd hsub =>
     RBT.rotate_left_spec s T p xr yr kx vx cx ky vy cy A B C henc hnd hsub,
   fun s T p yr xr ky vy cy kx vx cx A B C henc hnd hsub =>
     RBT.rotate_right_spec s T p yr xr ky vy cy kx vx cx A B C henc hnd hsub⟩

/-- Witness for C8 on concrete two-node stores: a left rotation at the
root of `storeXY` and a right rotation at the root of `storeYX`. -/
theorem C8_rotations_witness :
    (∃ s', RBT.rotate_left RBT.storeXY 0 = .ok s' ∧
       RBT.encodes s' none s'.root_
         (RBT.replaceH RBT.htreeXY []
           (RBT.HTree.node 1 20 0 RBT.Color.RED
             (RBT.HTree.node 0 10 0 RBT.Color.BLACK .nil .nil) .nil)) = true ∧
       (RBT.replaceH RBT.htreeXY []
         (RBT.HTree.node 1 20 0 RBT.Color.RED
           (RBT.HTree.node 0 10 0 RBT.Color.BLACK .nil .nil) .nil)).inorder =
         RBT.htreeXY.inorder ∧
       (([] : List TreeNav.Dir) = [] → s'.root_ = some 1)) ∧
    (∃ s', RBT.rotate_right RBT.storeYX 0 = .ok s' ∧
       RBT.encodes s' none s'.root_
         (RBT.replaceH RBT.htreeYX []
           (RBT.HTree.node 1 10 0 RBT.Color.RED .nil
             (RBT.HTree.node 0 20 0 RBT.Color.BLACK .nil .nil))) = true ∧
       (RBT.replaceH RBT.htreeYX []
         (RBT.HTree.node 1 10 0 RBT.Color.RED .nil
           (RBT.HTree.node 0 20 0 RBT.Color.BLACK .nil .nil))).inorder =
         RBT.htreeYX.inorder ∧
       (([] : List TreeNav.Dir) = [] → s'.root_ = some 1)) :=
  ⟨C8_rotations.1 RBT.storeXY RBT.htreeXY [] 0 1 10 0 RBT.Color.BLACK 20 0
     RBT.Color.RED .nil .nil .nil (by decide) (by decide) (by decide),
   C8_rotations.2 RBT.storeYX RBT.htreeYX [] 0 1 20 0 RBT.Color.BLACK 10 0
     RBT.Color.RED .nil .nil .nil (by decide) (by decide) (by decide)⟩
